import Mathlib

/-!
Verification development for the `gcn_monitor` repository.

This file gives a shallow embedding of the core pipeline of the repository
(`data_manager.py`, `llm_utils.py`, `gcn_utils.py`, `main.py`) and proves
properties of that embedding.

Modelling conventions:
* Python JSON values are the inductive `JsonValue`; a Python `dict` holding
  JSON data is an insertion-ordered association list `Dict` with the update
  and lookup semantics of Python dictionaries (`dictSet`, `dictGet`).
  A Python dictionary never holds two bindings of the same key, so the
  operations are written for that case: an update rebinds the first
  occurrence of the key in place, a lookup returns the first binding.
* Effectful collaborators that are outside the repository (the HTTP fetchers
  and the LLM inference service) are passed in as explicit values describing
  their outcomes, so theorems quantify over every behaviour of those
  collaborators.
* Configuration constants from `config.py` (not part of the repository's
  sources) such as `MAX_RETRIES_LLM` and `SKIP_CIRCULARS_BEFORE_ID` are
  parameters of the embedded functions.
* Fallible Python code is embedded with `Except`; an uncaught Python
  exception is an `Except.error`.
-/

/-- A JSON value as handled by Python's `json` module for this program.
Numbers are modelled as integers. -/
inductive JsonValue where
  | null : JsonValue
  | bool (b : Bool) : JsonValue
  | str (s : String) : JsonValue
  | num (n : Int) : JsonValue
  | arr (xs : List JsonValue) : JsonValue
  | obj (fields : List (String × JsonValue)) : JsonValue

/-- A Python dictionary with string keys and JSON values: an
insertion-ordered association list. -/
abbrev Dict := List (String × JsonValue)

/-- Python `d[k] = v`: rebind the key in place if present, otherwise append
the new binding at the end (insertion order). -/
def dictSet (d : Dict) (k : String) (v : JsonValue) : Dict :=
  match d with
  | [] => [(k, v)]
  | p :: rest => if p.1 = k then (k, v) :: rest else p :: dictSet rest k v

/-- Python `d.get(k)` (and `d[k]` on present keys). -/
def dictGet (d : Dict) (k : String) : Option JsonValue :=
  match d with
  | [] => none
  | p :: rest => if p.1 = k then some p.2 else dictGet rest k

/-- Python `k in d`. -/
def dictContains (d : Dict) (k : String) : Bool :=
  match d with
  | [] => false
  | p :: rest => p.1 = k || dictContains rest k

theorem dictGet_dictSet_self (d : Dict) (k : String) (v : JsonValue) :
    dictGet (dictSet d k v) k = some v := by
  induction d with
  | nil => simp [dictSet, dictGet]
  | cons p rest ih =>
    by_cases hp : p.1 = k
    · simp [dictSet, dictGet, hp]
    · simp [dictSet, dictGet, hp, ih]

theorem dictGet_dictSet_ne (d : Dict) (k k' : String) (v : JsonValue)
    (h : k ≠ k') : dictGet (dictSet d k v) k' = dictGet d k' := by
  induction d with
  | nil => simp [dictSet, dictGet, h]
  | cons p rest ih =>
    by_cases hp : p.1 = k
    · simp [dictSet, dictGet, hp, h, hp ▸ h]
    · simp [dictSet, dictGet, hp, ih]

theorem dictContains_dictSet_self (d : Dict) (k : String) (v : JsonValue) :
    dictContains (dictSet d k v) k = true := by
  induction d with
  | nil => simp [dictSet, dictContains]
  | cons p rest ih =>
    by_cases hp : p.1 = k <;> simp [dictSet, dictContains, hp, ih]

theorem dictContains_dictSet_ne (d : Dict) (k k' : String) (v : JsonValue)
    (h : k ≠ k') : dictContains (dictSet d k v) k' = dictContains d k' := by
  induction d with
  | nil => simp [dictSet, dictContains, h]
  | cons p rest ih =>
    by_cases hp : p.1 = k
    · simp [dictSet, dictContains, hp, hp ▸ h, ih]
    · simp [dictSet, dictContains, hp, ih]

theorem dictGet_isSome_of_contains (d : Dict) (k : String)
    (h : dictContains d k = true) : ∃ v, dictGet d k = some v := by
  induction d with
  | nil => simp [dictContains] at h
  | cons p rest ih =>
    by_cases hp : p.1 = k
    · exact ⟨p.2, by simp [dictGet, hp]⟩
    · simp only [dictContains, show decide (p.1 = k) = false by simp [hp],
        Bool.false_or] at h
      obtain ⟨v, hv⟩ := ih h
      exact ⟨v, by simp [dictGet, hp, hv]⟩

/-! ## Model of `llm_utils.py` -/

/-- The property names of `JSON_SCHEMA_DICT["properties"]` (llm_utils.py
lines 16-35), in source order, each paired with whether its declared type is
exactly `"boolean"`. -/
def schemaProperties : List (String × Bool) :=
  [("circular_id", false), ("circular_url", false), ("subject", false),
   ("is_trigger_event", true), ("event_time_utc", false),
   ("time_since_trigger", false), ("ra", false), ("dec", false),
   ("magnitude", false), ("magnitude_error", false), ("is_upper_limit", true),
   ("wavelength_band", false), ("multiple_bands_reported", true),
   ("telescope", false), ("observatory", false), ("raw_text", false),
   ("extraction_successful", true), ("llm_error_message", false)]

/-- The names of the schema properties, in source order. -/
def schema_property_names : List String := schemaProperties.map Prod.fst

/-- The three scientific boolean fields named at llm_utils.py lines 48-50,
55 and 181. -/
def scientific_bool_keys : List String :=
  ["is_trigger_event", "is_upper_limit", "multiple_bands_reported"]

/-- The keys excluded from the merge of the parsed LLM payload
(llm_utils.py line 177). -/
def identity_keys : List String :=
  ["circular_id", "circular_url", "subject", "raw_text",
   "extraction_successful", "llm_error_message"]

/-- A Python `str` argument that may be `None` (the `subject`), as a JSON
value. -/
def optStrToJson : Option String → JsonValue
  | none => JsonValue.null
  | some s => JsonValue.str s

/-- Model of `get_default_extracted_data` (llm_utils.py lines 39-58). -/
def get_default_extracted_data (circular_id circular_url : String)
    (subject : Option String) (raw_text : String) : Dict :=
  let data : Dict :=
    [("circular_id", JsonValue.str circular_id),
     ("circular_url", JsonValue.str circular_url),
     ("subject", optStrToJson subject),
     ("raw_text", JsonValue.str raw_text),
     ("extraction_successful", JsonValue.bool false),
     ("llm_error_message", JsonValue.null),
     ("is_trigger_event", JsonValue.bool false),
     ("is_upper_limit", JsonValue.bool false),
     ("multiple_bands_reported", JsonValue.bool false)]
  schemaProperties.foldl
    (fun d p =>
      if dictContains d p.1 then d
      else if p.2 && scientific_bool_keys.contains p.1 then d
      else dictSet d p.1 JsonValue.null)
    data

/-- The outcome of one attempt of the retry loop of `extract_info_with_llm`
(llm_utils.py lines 148-203), as seen at the boundary between the code and
the inference service: either the attempt produced a parsed payload
dictionary (`parsed_llm_json`, reaching line 176), or it raised one of the
caught exceptions (timeout, transport error, JSON decode error, unexpected
shape), carrying the message stored into `llm_error_message`. -/
inductive AttemptOutcome where
  | failure (msg : String) : AttemptOutcome
  | success (payload : Dict) : AttemptOutcome

/-- Model of the merge at llm_utils.py lines 176-178: every schema-known key
present in the parsed payload, except the identity/status keys, overwrites
the output record. -/
def mergeParsedLlmJson (data payload : Dict) : Dict :=
  schema_property_names.foldl
    (fun d key =>
      if dictContains payload key && !(identity_keys.contains key) then
        dictSet d key ((dictGet payload key).getD JsonValue.null)
      else d)
    data

/-- Model of Python `s.lower()`: lower-case the string character by
character. -/
def pyLower (s : String) : String := String.mk (s.data.map Char.toLower)

/-- One iteration of the boolean normalization at llm_utils.py lines
182-185: a string value is interpreted by `value.lower() == "true"`, a
boolean is kept, anything else (including an absent key) becomes `False`. -/
def coerceStep (d : Dict) (key : String) : Dict :=
  match dictGet d key with
  | some (JsonValue.str s) => dictSet d key (JsonValue.bool (pyLower s == "true"))
  | some (JsonValue.bool _) => d
  | _ => dictSet d key (JsonValue.bool false)

/-- Model of the boolean normalization loop at llm_utils.py lines 181-185. -/
def coerce_booleans (data : Dict) : Dict :=
  scientific_bool_keys.foldl coerceStep data

/-- The result of `extract_info_with_llm`, instrumented with the number of
attempts the loop executed and the list of `time.sleep` durations (seconds)
performed between consecutive attempts (llm_utils.py lines 205-208). -/
structure LlmResult where
  record : Dict
  attemptsMade : Nat
  sleeps : List Nat

/-- The retry loop of `extract_info_with_llm` (llm_utils.py lines 147-211),
starting at attempt index `attempt` with accumulated record `data`.
`outcomes i` is the behaviour of the inference service on attempt `i`. -/
def llmLoop (maxRetries : Nat) (outcomes : Nat → AttemptOutcome)
    (attempt : Nat) (data : Dict) : LlmResult :=
  if _h : attempt < maxRetries then
    match outcomes attempt with
    | AttemptOutcome.success payload =>
      let d0 := mergeParsedLlmJson data payload
      let d1 := coerce_booleans d0
      let d2 := dictSet d1 "extraction_successful" (JsonValue.bool true)
      { record := d2, attemptsMade := attempt + 1, sleeps := [] }
    | AttemptOutcome.failure msg =>
      let d := dictSet data "llm_error_message" (JsonValue.str msg)
      if attempt < maxRetries - 1 then
        let r := llmLoop maxRetries outcomes (attempt + 1) d
        { record := r.record, attemptsMade := r.attemptsMade,
          sleeps := 5 * (attempt + 1) :: r.sleeps }
      else
        { record := d, attemptsMade := attempt + 1, sleeps := [] }
  else
    { record := data, attemptsMade := attempt, sleeps := [] }
termination_by maxRetries - attempt
decreasing_by omega

/-- Model of `extract_info_with_llm` (llm_utils.py lines 60-211).
`maxRetries` is the configuration constant `MAX_RETRIES_LLM`. -/
def extract_info_with_llm (maxRetries : Nat) (outcomes : Nat → AttemptOutcome)
    (circular_text circular_id circular_url : String)
    (subject : Option String) : LlmResult :=
  llmLoop maxRetries outcomes 0
    (get_default_extracted_data circular_id circular_url subject circular_text)

/-! ## Model of `gcn_utils.py` -/

/-- Python truthiness of an optional string: `None` and the empty string are
falsy. -/
def pyTruthy : Option String → Bool
  | none => false
  | some s => !(s.data.isEmpty)

/-- Whitespace for Python `str.strip()` with no argument. -/
def pyIsSpace (c : Char) : Bool :=
  c = ' ' || c = '\t' || c = '\n' || c = '\r' || c = Char.ofNat 11 || c = Char.ofNat 12

/-- Model of Python `s.strip()`: remove leading and trailing whitespace. -/
def pyStrip (s : String) : String :=
  String.mk (((s.data.dropWhile pyIsSpace).reverse.dropWhile pyIsSpace).reverse)

/-- Model of Python `s.startswith(pre)`. -/
def pyStartsWith (s pre : String) : Bool :=
  pre.data.isPrefixOf s.data

/-- The two placeholder prefixes checked at gcn_utils.py lines 141-142. -/
def placeholderPrefix1 : String := "The GCN Circular system is evolving."

/-- The second placeholder prefix. -/
def placeholderPrefix2 : String := "This GCN Circular is currently unavailable."

/-- The placeholder test of gcn_utils.py lines 141-142:
`raw_text.strip().startswith(...)` for either placeholder. -/
def isPlaceholderText (t : String) : Bool :=
  pyStartsWith (pyStrip t) placeholderPrefix1 ||
  pyStartsWith (pyStrip t) placeholderPrefix2

/-- Model of `get_circular_text_robust` (gcn_utils.py lines 132-160),
instrumented with whether the `.gcn3` fallback fetch was attempted.
`pageText` is the outcome of `get_circular_raw_text_from_page` on the
primary page; `gcn3Text` is the outcome the `.gcn3` fetch would produce. -/
def get_circular_text_robust_instr (pageText gcn3Text : Option String) :
    Option String × Bool :=
  let raw0 := pageText
  let raw1 :=
    if pyTruthy raw0 && (raw0.getD "").length > 50 then
      if isPlaceholderText (raw0.getD "") then none else raw0
    else raw0
  if !pyTruthy raw1 || (raw1.getD "").length < 50 then
    if pyTruthy gcn3Text && (gcn3Text.getD "").length > (raw1.getD "").length then
      (gcn3Text, true)
    else if pyTruthy raw1 then
      (raw1, true)
    else
      (none, true)
  else
    (raw1, false)

/-- Model of `get_circular_text_robust` (gcn_utils.py lines 132-160). -/
def get_circular_text_robust (pageText gcn3Text : Option String) :
    Option String :=
  (get_circular_text_robust_instr pageText gcn3Text).1

/-! ## Model of `main.py` -/

/-- One entry of the parsed circular list (a `BulletinReference`):
`subject := none` models a dictionary without a `'subject'` key, for which
`circ_info.get('subject', ...)` falls back to its default (main.py
line 45). -/
structure CircInfo where
  id : String
  url : String
  subject : Option String

/-- The external behaviour relevant to processing one circular: the two
text-fetch outcomes and the inference-service behaviour. -/
structure CircEnv where
  pageText : Option String
  gcn3Text : Option String
  maxRetries : Nat
  llmOutcomes : Nat → AttemptOutcome

/-- The state owned by the polling loop: the in-memory processed-ID set, the
on-disk append-only ledger file (sequence of appended lines), and the
in-memory result list. -/
structure LoopState where
  processedIds : List String
  ledgerFile : List String
  results : List Dict

/-- Side effects observed while handling one list entry: whether text
retrieval ran, whether LLM extraction ran, and whether a notification was
dispatched. -/
structure ItemEvent where
  textFetched : Bool
  llmCalled : Bool
  notified : Bool
deriving DecidableEq

/-- No side effect at all. -/
def noEvent : ItemEvent :=
  { textFetched := false, llmCalled := false, notified := false }

/-- The numeric value of a list of decimal digit characters. -/
def digitsVal (ds : List Char) : Nat :=
  ds.foldl (fun a c => 10 * a + (c.toNat - 48)) 0

/-- Model of Python `int(s)` on the strings that occur as circular
identifiers: surrounding whitespace then an optional sign followed by
decimal digits; anything else raises `ValueError` (`none`). -/
def pyParseInt (s : String) : Option Int :=
  let t := (pyStrip s).data
  let neg := t.head? = some '-'
  let core := if neg || t.head? = some '+' then t.tail else t
  if core.length > 0 && core.all Char.isDigit then
    some (if neg then -(digitsVal core : Int) else (digitsVal core : Int))
  else none

/-- Model of `process_single_circular` (main.py lines 41-69): fetch the
text, on a falsy result append the terminal failure record, otherwise run
the extraction engine; in both cases notify. -/
def process_single_circular (env : CircEnv) (c : CircInfo)
    (results : List Dict) : List Dict × ItemEvent :=
  let subject := c.subject.getD ("Subject for " ++ c.id)
  let raw_text := get_circular_text_robust env.pageText env.gcn3Text
  if !pyTruthy raw_text then
    let e0 := get_default_extracted_data c.id c.url (some subject)
      "COULD NOT RETRIEVE TEXT"
    let e1 := dictSet e0 "extraction_successful" (JsonValue.bool false)
    let e2 := dictSet e1 "llm_error_message"
      (JsonValue.str "Failed to retrieve raw text from circular page or .gcn3 file.")
    (results ++ [e2], { textFetched := true, llmCalled := false, notified := true })
  else
    let r := extract_info_with_llm env.maxRetries env.llmOutcomes
      (raw_text.getD "") c.id c.url (some subject)
    (results ++ [r.record], { textFetched := true, llmCalled := true, notified := true })

/-- Accumulator for one pass of the polling loop over the parsed list
(main.py lines 107-146): the loop state, the per-item side-effect events in
processing order, and the two per-cycle counters. -/
structure CycleAcc where
  state : LoopState
  events : List ItemEvent
  newCount : Nat
  skipCount : Nat

/-- The already-in-ledger check and new-item processing of main.py lines
136-146. -/
def stepProcess (env : String → CircEnv) (acc : CycleAcc) (c : CircInfo) :
    CycleAcc :=
  let st := acc.state
  if st.processedIds.contains c.id then
    { acc with events := acc.events ++ [noEvent] }
  else
    let pr := process_single_circular (env c.id) c st.results
    { state :=
        { processedIds := st.processedIds ++ [c.id],
          ledgerFile := st.ledgerFile ++ [c.id],
          results := pr.1 },
      events := acc.events ++ [pr.2],
      newCount := acc.newCount + 1,
      skipCount := acc.skipCount }

/-- Handling of one entry of the reversed circular list (main.py lines
114-146): the integer-parse guard, the ID-floor suppression, the ledger
check, and normal processing. `skipBefore` is the parsed
`SKIP_CIRCULARS_BEFORE_ID` configuration (`skip_before_id_val`). -/
def stepItem (skipBefore : Option Int) (env : String → CircEnv)
    (acc : CycleAcc) (c : CircInfo) : CycleAcc :=
  let st := acc.state
  match pyParseInt c.id with
  | none =>
    if st.processedIds.contains c.id then
      { acc with events := acc.events ++ [noEvent] }
    else
      { acc with
        state :=
          { st with
            processedIds := st.processedIds ++ [c.id],
            ledgerFile := st.ledgerFile ++ [c.id] },
        events := acc.events ++ [noEvent] }
  | some n =>
    match skipBefore with
    | some floorId =>
      if n < floorId then
        if st.processedIds.contains c.id then
          { acc with events := acc.events ++ [noEvent] }
        else
          { acc with
            state :=
              { st with
                processedIds := st.processedIds ++ [c.id],
                ledgerFile := st.ledgerFile ++ [c.id] },
            events := acc.events ++ [noEvent],
            skipCount := acc.skipCount + 1 }
      else
        stepProcess env acc c
    | none => stepProcess env acc c

/-- One full pass of the polling loop over a parsed circular list (main.py
lines 107-146): entries are visited oldest-first (`reversed`, line 114). -/
def runCycle (skipBefore : Option Int) (env : String → CircEnv)
    (st : LoopState) (circulars : List CircInfo) : CycleAcc :=
  circulars.reverse.foldl (stepItem skipBefore env)
    { state := st, events := [], newCount := 0, skipCount := 0 }

/-! ## Lemmas about the extraction engine -/

theorem dictGet_eq_none_of_not_contains (d : Dict) (k : String)
    (h : dictContains d k = false) : dictGet d k = none := by
  induction d with
  | nil => simp [dictGet]
  | cons p rest ih =>
    by_cases hp : p.1 = k
    · simp [dictContains, hp] at h
    · simp only [dictContains, show decide (p.1 = k) = false by simp [hp],
        Bool.false_or] at h
      simp [dictGet, hp, ih h]

/-- How one lookup reads through the payload-merge fold of
`mergeParsedLlmJson`, for an arbitrary key list. -/
theorem dictGet_merge_fold (payload : Dict) (key : String) :
    ∀ (ks : List String) (d : Dict),
      dictGet (ks.foldl
        (fun d k =>
          if dictContains payload k && !(identity_keys.contains k) then
            dictSet d k ((dictGet payload k).getD JsonValue.null)
          else d) d) key =
      if key ∈ ks ∧ (dictContains payload key && !(identity_keys.contains key)) = true then
        some ((dictGet payload key).getD JsonValue.null)
      else dictGet d key := by
  intro ks
  induction ks with
  | nil => intro d; rw [List.foldl_nil, if_neg (fun h => List.not_mem_nil key h.1)]
  | cons k ks ih =>
    intro d
    rw [List.foldl_cons, ih]
    by_cases hc : (dictContains payload key && !(identity_keys.contains key)) = true
    · by_cases hmem : key ∈ ks
      · have h1 : key ∈ ks ∧ (dictContains payload key && !(identity_keys.contains key)) = true :=
          ⟨hmem, hc⟩
        have h2 : key ∈ k :: ks ∧
            (dictContains payload key && !(identity_keys.contains key)) = true :=
          ⟨List.mem_cons_of_mem _ hmem, hc⟩
        rw [if_pos h1, if_pos h2]
      · have h1 : ¬(key ∈ ks ∧
            (dictContains payload key && !(identity_keys.contains key)) = true) :=
          fun h => hmem h.1
        rw [if_neg h1]
        by_cases hk : key = k
        · subst hk
          have h2 : key ∈ key :: ks ∧
              (dictContains payload key && !(identity_keys.contains key)) = true :=
            ⟨List.mem_cons_self _ _, hc⟩
          rw [if_pos h2, if_pos hc]
          exact dictGet_dictSet_self _ _ _
        · have h2 : ¬(key ∈ k :: ks ∧
              (dictContains payload key && !(identity_keys.contains key)) = true) := by
            rintro ⟨h', _⟩
            rcases List.mem_cons.mp h' with h'' | h''
            · exact hk h''
            · exact hmem h''
          rw [if_neg h2]
          by_cases hck : (dictContains payload k && !(identity_keys.contains k)) = true
          · rw [if_pos hck]; exact dictGet_dictSet_ne _ _ _ _ (Ne.symm hk)
          · rw [if_neg hck]
    · have h1 : ¬(key ∈ ks ∧
          (dictContains payload key && !(identity_keys.contains key)) = true) :=
        fun h => hc h.2
      have h2 : ¬(key ∈ k :: ks ∧
          (dictContains payload key && !(identity_keys.contains key)) = true) :=
        fun h => hc h.2
      rw [if_neg h1, if_neg h2]
      by_cases hk : key = k
      · subst hk; rw [if_neg hc]
      · by_cases hck : (dictContains payload k && !(identity_keys.contains k)) = true
        · rw [if_pos hck]; exact dictGet_dictSet_ne _ _ _ _ (Ne.symm hk)
        · rw [if_neg hck]

theorem dictGet_mergeParsedLlmJson (data payload : Dict) (key : String) :
    dictGet (mergeParsedLlmJson data payload) key =
      if key ∈ schema_property_names ∧
          (dictContains payload key && !(identity_keys.contains key)) = true then
        some ((dictGet payload key).getD JsonValue.null)
      else dictGet data key :=
  dictGet_merge_fold payload key schema_property_names data

/-- The value the boolean normalization gives a field, as a function of the
value the field held (llm_utils.py lines 181-185): booleans are kept,
strings are interpreted case-insensitively, anything else becomes false. -/
def coerceOf : Option JsonValue → Bool
  | some (JsonValue.bool b) => b
  | some (JsonValue.str s) => pyLower s == "true"
  | _ => false

theorem dictGet_coerceStep_self (d : Dict) (k : String) :
    dictGet (coerceStep d k) k = some (JsonValue.bool (coerceOf (dictGet d k))) := by
  rcases h : dictGet d k with _ | v
  · simp [coerceStep, h, coerceOf, dictGet_dictSet_self]
  · cases v <;> simp [coerceStep, h, coerceOf, dictGet_dictSet_self]

theorem dictGet_coerceStep_ne (d : Dict) (k k' : String) (h : k ≠ k') :
    dictGet (coerceStep d k) k' = dictGet d k' := by
  rcases hv : dictGet d k with _ | v
  · simp [coerceStep, hv, dictGet_dictSet_ne _ _ _ _ h]
  · cases v <;> simp [coerceStep, hv, dictGet_dictSet_ne _ _ _ _ h]

theorem dictGet_coerce_booleans_mem (d : Dict) (key : String)
    (h : key ∈ scientific_bool_keys) :
    dictGet (coerce_booleans d) key = some (JsonValue.bool (coerceOf (dictGet d key))) := by
  have hfold : coerce_booleans d =
      coerceStep (coerceStep (coerceStep d "is_trigger_event") "is_upper_limit")
        "multiple_bands_reported" := rfl
  fin_cases h
  · rw [hfold,
      dictGet_coerceStep_ne _ _ _ (by decide),
      dictGet_coerceStep_ne _ _ _ (by decide),
      dictGet_coerceStep_self]
  · rw [hfold,
      dictGet_coerceStep_ne _ _ _ (by decide),
      dictGet_coerceStep_self,
      dictGet_coerceStep_ne _ _ _ (by decide)]
  · rw [hfold,
      dictGet_coerceStep_self,
      dictGet_coerceStep_ne _ _ _ (by decide),
      dictGet_coerceStep_ne _ _ _ (by decide)]

theorem dictGet_coerce_booleans_not_mem (d : Dict) (key : String)
    (h : key ∉ scientific_bool_keys) :
    dictGet (coerce_booleans d) key = dictGet d key := by
  have h1 : "is_trigger_event" ≠ key := fun hk => h (by rw [← hk]; simp [scientific_bool_keys])
  have h2 : "is_upper_limit" ≠ key := fun hk => h (by rw [← hk]; simp [scientific_bool_keys])
  have h3 : "multiple_bands_reported" ≠ key :=
    fun hk => h (by rw [← hk]; simp [scientific_bool_keys])
  have hfold : coerce_booleans d =
      coerceStep (coerceStep (coerceStep d "is_trigger_event") "is_upper_limit")
        "multiple_bands_reported" := rfl
  rw [hfold, dictGet_coerceStep_ne _ _ _ h3, dictGet_coerceStep_ne _ _ _ h2,
    dictGet_coerceStep_ne _ _ _ h1]

theorem llmLoop_not_lt (maxRetries : Nat) (outcomes : Nat → AttemptOutcome)
    (attempt : Nat) (data : Dict) (h : ¬attempt < maxRetries) :
    llmLoop maxRetries outcomes attempt data =
      { record := data, attemptsMade := attempt, sleeps := [] } := by
  rw [llmLoop]; simp [h]

theorem llmLoop_success (maxRetries : Nat) (outcomes : Nat → AttemptOutcome)
    (attempt : Nat) (data : Dict) (p : Dict) (h : attempt < maxRetries)
    (hs : outcomes attempt = AttemptOutcome.success p) :
    llmLoop maxRetries outcomes attempt data =
      { record := dictSet (coerce_booleans (mergeParsedLlmJson data p))
          "extraction_successful" (JsonValue.bool true),
        attemptsMade := attempt + 1, sleeps := [] } := by
  rw [llmLoop]; simp [h, hs]

theorem llmLoop_failure_last (maxRetries : Nat) (outcomes : Nat → AttemptOutcome)
    (attempt : Nat) (data : Dict) (msg : String) (h : attempt < maxRetries)
    (h2 : ¬attempt < maxRetries - 1)
    (hf : outcomes attempt = AttemptOutcome.failure msg) :
    llmLoop maxRetries outcomes attempt data =
      { record := dictSet data "llm_error_message" (JsonValue.str msg),
        attemptsMade := attempt + 1, sleeps := [] } := by
  rw [llmLoop]; simp [h, h2, hf]

theorem llmLoop_failure_step (maxRetries : Nat) (outcomes : Nat → AttemptOutcome)
    (attempt : Nat) (data : Dict) (msg : String)
    (h : attempt < maxRetries - 1)
    (hf : outcomes attempt = AttemptOutcome.failure msg) :
    llmLoop maxRetries outcomes attempt data =
      { record := (llmLoop maxRetries outcomes (attempt + 1)
          (dictSet data "llm_error_message" (JsonValue.str msg))).record,
        attemptsMade := (llmLoop maxRetries outcomes (attempt + 1)
          (dictSet data "llm_error_message" (JsonValue.str msg))).attemptsMade,
        sleeps := 5 * (attempt + 1) :: (llmLoop maxRetries outcomes (attempt + 1)
          (dictSet data "llm_error_message" (JsonValue.str msg))).sleeps } := by
  rw [llmLoop]; simp [show attempt < maxRetries by omega, hf, h]

/-- If every attempt from `attempt` on fails, the loop runs to exhaustion:
it makes `maxRetries` attempts in total, sleeps `5 * (i + 1)` seconds after
failed attempt `i` for every attempt but the last, records the last failure
message, and changes no other field of the record. -/
theorem llmLoop_all_fail (maxRetries : Nat) (outcomes : Nat → AttemptOutcome) :
    ∀ (n attempt : Nat) (data : Dict), maxRetries = attempt + n + 1 →
      (∀ i, attempt ≤ i → i < maxRetries → ∃ m, outcomes i = AttemptOutcome.failure m) →
      (llmLoop maxRetries outcomes attempt data).attemptsMade = maxRetries ∧
      (llmLoop maxRetries outcomes attempt data).sleeps =
        (List.range n).map (fun j => 5 * (attempt + j + 1)) ∧
      (∃ m, outcomes (maxRetries - 1) = AttemptOutcome.failure m ∧
        dictGet (llmLoop maxRetries outcomes attempt data).record "llm_error_message" =
          some (JsonValue.str m)) ∧
      (∀ k, k ≠ "llm_error_message" →
        dictGet (llmLoop maxRetries outcomes attempt data).record k = dictGet data k) := by
  intro n
  induction n with
  | zero =>
    intro attempt data hm hf
    obtain ⟨m, hmf⟩ := hf attempt le_rfl (by omega)
    rw [llmLoop_failure_last maxRetries outcomes attempt data m (by omega) (by omega) hmf]
    refine ⟨by simp; omega, by simp, ⟨m, ?_, ?_⟩, ?_⟩
    · have : maxRetries - 1 = attempt := by omega
      rw [this]; exact hmf
    · exact dictGet_dictSet_self _ _ _
    · intro k hk
      exact dictGet_dictSet_ne _ _ _ _ (Ne.symm hk)
  | succ n ih =>
    intro attempt data hm hf
    obtain ⟨m, hmf⟩ := hf attempt le_rfl (by omega)
    rw [llmLoop_failure_step maxRetries outcomes attempt data m (by omega) hmf]
    obtain ⟨h1, h2, ⟨m2, hm2, h3⟩, h4⟩ :=
      ih (attempt + 1) (dictSet data "llm_error_message" (JsonValue.str m)) (by omega)
        (fun i hi1 hi2 => hf i (by omega) hi2)
    refine ⟨h1, ?_, ⟨m2, hm2, h3⟩, ?_⟩
    · simp only [h2, List.range_succ_eq_map, List.map_cons, List.map_map]
      refine congrArg₂ _ (by omega) ?_
      apply List.map_congr_left
      intro a _
      simp [Function.comp]
      omega
    · intro k hk
      rw [h4 k hk]
      exact dictGet_dictSet_ne _ _ _ _ (Ne.symm hk)

/-- If the first `k` attempts fail and attempt `attempt + k` succeeds, the
loop stops right after the successful attempt, having slept `5 * (i + 1)`
seconds after each failed attempt, and the record is the merged, coerced
record marked successful, built on top of the failure-annotated record. -/
theorem llmLoop_success_after (maxRetries : Nat) (outcomes : Nat → AttemptOutcome) :
    ∀ (k attempt : Nat) (data : Dict), attempt + k < maxRetries →
      (∀ i, attempt ≤ i → i < attempt + k → ∃ m, outcomes i = AttemptOutcome.failure m) →
      ∀ p, outcomes (attempt + k) = AttemptOutcome.success p →
      (llmLoop maxRetries outcomes attempt data).attemptsMade = attempt + k + 1 ∧
      (llmLoop maxRetries outcomes attempt data).sleeps =
        (List.range k).map (fun j => 5 * (attempt + j + 1)) ∧
      ∃ d', (llmLoop maxRetries outcomes attempt data).record =
          dictSet (coerce_booleans (mergeParsedLlmJson d' p))
            "extraction_successful" (JsonValue.bool true) ∧
        (∀ key, key ≠ "llm_error_message" → dictGet d' key = dictGet data key) := by
  intro k
  induction k with
  | zero =>
    intro attempt data hlt hfail p hs
    rw [llmLoop_success maxRetries outcomes attempt data p (by omega)
      (by rw [show attempt = attempt + 0 by omega] at hs ⊢; exact hs)]
    exact ⟨rfl, by simp, data, rfl, fun key _ => rfl⟩
  | succ k ih =>
    intro attempt data hlt hfail p hs
    obtain ⟨m, hmf⟩ := hfail attempt le_rfl (by omega)
    rw [llmLoop_failure_step maxRetries outcomes attempt data m (by omega) hmf]
    obtain ⟨h1, h2, d', h3, h4⟩ :=
      ih (attempt + 1) (dictSet data "llm_error_message" (JsonValue.str m))
        (by omega) (fun i hi1 hi2 => hfail i (by omega) (by omega))
        p (by rw [show attempt + 1 + k = attempt + (k + 1) by omega]; exact hs)
    refine ⟨by simp [h1]; omega, ?_, d', h3, ?_⟩
    · simp only [h2, List.range_succ_eq_map, List.map_cons, List.map_map]
      refine congrArg₂ _ (by omega) ?_
      apply List.map_congr_left
      intro a _
      simp [Function.comp]
      omega
    · intro key hk
      rw [h4 key hk]
      exact dictGet_dictSet_ne _ _ _ _ (Ne.symm hk)

/-- A key that the failure path, the payload merge, the boolean
normalization and the success marking all leave alone is preserved by the
whole retry loop. -/
theorem llmLoop_preserves (maxRetries : Nat) (outcomes : Nat → AttemptOutcome)
    (key : String) (h1 : key ≠ "llm_error_message")
    (h2 : key ≠ "extraction_successful") (h3 : key ∉ scientific_bool_keys)
    (h4 : identity_keys.contains key = true) :
    ∀ (fuel attempt : Nat) (data : Dict), maxRetries - attempt ≤ fuel →
      dictGet (llmLoop maxRetries outcomes attempt data).record key = dictGet data key := by
  intro fuel
  induction fuel with
  | zero =>
    intro attempt data hfuel
    rw [llmLoop_not_lt maxRetries outcomes attempt data (by omega)]
  | succ fuel ih =>
    intro attempt data hfuel
    by_cases hlt : attempt < maxRetries
    · cases ho : outcomes attempt with
      | success p =>
        rw [llmLoop_success maxRetries outcomes attempt data p hlt ho]
        rw [dictGet_dictSet_ne _ _ _ _ (Ne.symm h2)]
        rw [dictGet_coerce_booleans_not_mem _ _ h3]
        rw [dictGet_mergeParsedLlmJson]
        rw [if_neg (fun hcond => by
          have hc2 := hcond.2
          rw [h4] at hc2
          simp at hc2)]
      | failure m =>
        by_cases hstep : attempt < maxRetries - 1
        · rw [llmLoop_failure_step maxRetries outcomes attempt data m hstep ho]
          have := ih (attempt + 1)
            (dictSet data "llm_error_message" (JsonValue.str m)) (by omega)
          simp only at this ⊢
          rw [this]
          exact dictGet_dictSet_ne _ _ _ _ (Ne.symm h1)
        · rw [llmLoop_failure_last maxRetries outcomes attempt data m hlt hstep ho]
          exact dictGet_dictSet_ne _ _ _ _ (Ne.symm h1)
    · rw [llmLoop_not_lt maxRetries outcomes attempt data hlt]

theorem sci_key_ne_success_flag (key : String) (h : key ∈ scientific_bool_keys) :
    key ≠ "extraction_successful" := by
  fin_cases h <;> decide

theorem sci_key_ne_error_field (key : String) (h : key ∈ scientific_bool_keys) :
    key ≠ "llm_error_message" := by
  fin_cases h <;> decide

/-- Through the whole retry loop, each scientific boolean field always holds
an actual boolean, provided it does so in the starting record. -/
theorem llmLoop_sci_bool (maxRetries : Nat) (outcomes : Nat → AttemptOutcome)
    (key : String) (hkey : key ∈ scientific_bool_keys) :
    ∀ (fuel attempt : Nat) (data : Dict), maxRetries - attempt ≤ fuel →
      (∃ b, dictGet data key = some (JsonValue.bool b)) →
      ∃ b, dictGet (llmLoop maxRetries outcomes attempt data).record key =
        some (JsonValue.bool b) := by
  intro fuel
  induction fuel with
  | zero =>
    intro attempt data hfuel hdata
    rw [llmLoop_not_lt maxRetries outcomes attempt data (by omega)]
    exact hdata
  | succ fuel ih =>
    intro attempt data hfuel hdata
    by_cases hlt : attempt < maxRetries
    · cases ho : outcomes attempt with
      | success p =>
        rw [llmLoop_success maxRetries outcomes attempt data p hlt ho]
        rw [dictGet_dictSet_ne _ _ _ _ (Ne.symm (sci_key_ne_success_flag key hkey))]
        rw [dictGet_coerce_booleans_mem _ _ hkey]
        exact ⟨_, rfl⟩
      | failure m =>
        have hpres : ∃ b,
            dictGet (dictSet data "llm_error_message" (JsonValue.str m)) key =
              some (JsonValue.bool b) := by
          rw [dictGet_dictSet_ne _ _ _ _ (Ne.symm (sci_key_ne_error_field key hkey))]
          exact hdata
        by_cases hstep : attempt < maxRetries - 1
        · rw [llmLoop_failure_step maxRetries outcomes attempt data m hstep ho]
          exact ih (attempt + 1) _ (by omega) hpres
        · rw [llmLoop_failure_last maxRetries outcomes attempt data m hlt hstep ho]
          exact hpres
    · rw [llmLoop_not_lt maxRetries outcomes attempt data hlt]
      exact hdata

/-- The default record, written out (llm_utils.py lines 39-58): the nine
explicitly supplied fields in construction order, then the remaining schema
fields appended as `null` in schema order. -/
theorem get_default_extracted_data_eq (i u : String) (s : Option String) (t : String) :
    get_default_extracted_data i u s t =
      [("circular_id", JsonValue.str i),
       ("circular_url", JsonValue.str u),
       ("subject", optStrToJson s),
       ("raw_text", JsonValue.str t),
       ("extraction_successful", JsonValue.bool false),
       ("llm_error_message", JsonValue.null),
       ("is_trigger_event", JsonValue.bool false),
       ("is_upper_limit", JsonValue.bool false),
       ("multiple_bands_reported", JsonValue.bool false),
       ("event_time_utc", JsonValue.null),
       ("time_since_trigger", JsonValue.null),
       ("ra", JsonValue.null),
       ("dec", JsonValue.null),
       ("magnitude", JsonValue.null),
       ("magnitude_error", JsonValue.null),
       ("wavelength_band", JsonValue.null),
       ("telescope", JsonValue.null),
       ("observatory", JsonValue.null)] := by
  simp [get_default_extracted_data, schemaProperties, dictContains, dictSet,
    scientific_bool_keys]

theorem dictGet_default_circular_id (i u : String) (s : Option String) (t : String) :
    dictGet (get_default_extracted_data i u s t) "circular_id" = some (JsonValue.str i) := by
  rw [get_default_extracted_data_eq]; simp [dictGet]

theorem dictGet_default_circular_url (i u : String) (s : Option String) (t : String) :
    dictGet (get_default_extracted_data i u s t) "circular_url" = some (JsonValue.str u) := by
  rw [get_default_extracted_data_eq]; simp [dictGet]

theorem dictGet_default_subject (i u : String) (s : Option String) (t : String) :
    dictGet (get_default_extracted_data i u s t) "subject" = some (optStrToJson s) := by
  rw [get_default_extracted_data_eq]; simp [dictGet]

theorem dictGet_default_raw_text (i u : String) (s : Option String) (t : String) :
    dictGet (get_default_extracted_data i u s t) "raw_text" = some (JsonValue.str t) := by
  rw [get_default_extracted_data_eq]; simp [dictGet]

theorem dictGet_default_success_flag (i u : String) (s : Option String) (t : String) :
    dictGet (get_default_extracted_data i u s t) "extraction_successful" =
      some (JsonValue.bool false) := by
  rw [get_default_extracted_data_eq]; simp [dictGet]

theorem dictGet_default_error_field (i u : String) (s : Option String) (t : String) :
    dictGet (get_default_extracted_data i u s t) "llm_error_message" =
      some JsonValue.null := by
  rw [get_default_extracted_data_eq]; simp [dictGet]

theorem dictGet_default_sci_bool (i u : String) (s : Option String) (t : String)
    (key : String) (h : key ∈ scientific_bool_keys) :
    dictGet (get_default_extracted_data i u s t) key = some (JsonValue.bool false) := by
  fin_cases h <;> (rw [get_default_extracted_data_eq]; simp [dictGet])

/-- A payload with the identity/status keys removed. -/
def stripIdentity : Dict → Dict
  | [] => []
  | kv :: rest =>
    if identity_keys.contains kv.1 then stripIdentity rest
    else kv :: stripIdentity rest

/-- The same service behaviour with the identity/status keys removed from
every successful payload. -/
def stripOutcome : AttemptOutcome → AttemptOutcome
  | AttemptOutcome.success p => AttemptOutcome.success (stripIdentity p)
  | o => o

theorem dictGet_stripIdentity (p : Dict) (k : String)
    (h : identity_keys.contains k = false) :
    dictGet (stripIdentity p) k = dictGet p k := by
  induction p with
  | nil => rfl
  | cons q rest ih =>
    by_cases hq : q.1 = k
    · have hkeep : identity_keys.contains q.1 = false := by rw [hq]; exact h
      rw [stripIdentity, if_neg (by rw [hkeep]; exact Bool.false_ne_true)]
      simp [dictGet, hq]
    · cases hkeep : identity_keys.contains q.1
      · rw [stripIdentity, if_neg (by rw [hkeep]; exact Bool.false_ne_true)]
        simp [dictGet, hq, ih]
      · rw [stripIdentity, if_pos hkeep]
        simp [dictGet, hq, ih]

theorem dictContains_stripIdentity (p : Dict) (k : String)
    (h : identity_keys.contains k = false) :
    dictContains (stripIdentity p) k = dictContains p k := by
  induction p with
  | nil => rfl
  | cons q rest ih =>
    by_cases hq : q.1 = k
    · have hkeep : identity_keys.contains q.1 = false := by rw [hq]; exact h
      rw [stripIdentity, if_neg (by rw [hkeep]; exact Bool.false_ne_true)]
      simp [dictContains, hq]
    · cases hkeep : identity_keys.contains q.1
      · rw [stripIdentity, if_neg (by rw [hkeep]; exact Bool.false_ne_true)]
        simp [dictContains, hq, ih]
      · rw [stripIdentity, if_pos hkeep]
        simp [dictContains, hq, ih]

theorem list_foldl_congr_fun {α β : Type} (f g : α → β → α) :
    ∀ (l : List β) (a : α), (∀ acc b, b ∈ l → f acc b = g acc b) →
      l.foldl f a = l.foldl g a := by
  intro l
  induction l with
  | nil => intro a _; rfl
  | cons b l ih =>
    intro a h
    rw [List.foldl_cons, List.foldl_cons, h a b (List.mem_cons_self _ _)]
    exact ih _ (fun acc b' hb' => h acc b' (List.mem_cons_of_mem _ hb'))

/-- The payload merge ignores the identity/status keys entirely: removing
them from the payload does not change the merged record. -/
theorem mergeParsedLlmJson_stripIdentity (d p : Dict) :
    mergeParsedLlmJson d (stripIdentity p) = mergeParsedLlmJson d p := by
  unfold mergeParsedLlmJson
  apply list_foldl_congr_fun
  intro acc key _
  cases hid : identity_keys.contains key
  · rw [dictContains_stripIdentity p key hid, dictGet_stripIdentity p key hid]
  · simp [hid]

/-- The whole retry loop ignores the identity/status keys of every
successful payload. -/
theorem llmLoop_stripOutcome (maxRetries : Nat) (outcomes : Nat → AttemptOutcome) :
    ∀ (fuel attempt : Nat) (data : Dict), maxRetries - attempt ≤ fuel →
      llmLoop maxRetries (fun i => stripOutcome (outcomes i)) attempt data =
        llmLoop maxRetries outcomes attempt data := by
  intro fuel
  induction fuel with
  | zero =>
    intro attempt data hfuel
    rw [llmLoop_not_lt _ _ _ _ (by omega), llmLoop_not_lt _ _ _ _ (by omega)]
  | succ fuel ih =>
    intro attempt data hfuel
    by_cases hlt : attempt < maxRetries
    · cases ho : outcomes attempt with
      | success p =>
        rw [llmLoop_success maxRetries outcomes attempt data p hlt ho]
        rw [llmLoop_success maxRetries _ attempt data (stripIdentity p) hlt
          (by simp [ho, stripOutcome])]
        rw [mergeParsedLlmJson_stripIdentity]
      | failure m =>
        by_cases hstep : attempt < maxRetries - 1
        · rw [llmLoop_failure_step maxRetries outcomes attempt data m hstep ho]
          rw [llmLoop_failure_step maxRetries _ attempt data m hstep
            (by simp [ho, stripOutcome])]
          rw [ih (attempt + 1) _ (by omega)]
        · rw [llmLoop_failure_last maxRetries outcomes attempt data m hlt hstep ho]
          rw [llmLoop_failure_last maxRetries _ attempt data m hlt hstep
            (by simp [ho, stripOutcome])]
    · rw [llmLoop_not_lt _ _ _ _ hlt, llmLoop_not_lt _ _ _ _ hlt]

theorem sci_key_mem_schema (key : String) (h : key ∈ scientific_bool_keys) :
    key ∈ schema_property_names := by
  fin_cases h <;> decide

theorem sci_key_not_identity (key : String) (h : key ∈ scientific_bool_keys) :
    identity_keys.contains key = false := by
  fin_cases h <;> decide

/-- C3: `extract(text, id, url, subject)` never raises (the embedding is a
total function returning exactly one record). If every one of the
`maxRetries` attempts fails, the returned record has
`extraction_successful = false` and a non-null `llm_error_message`, the
loop made exactly `maxRetries` attempts, sleeping `5 * (attempt_index + 1)`
seconds between consecutive attempts; and as soon as an attempt succeeds,
no further attempt is made. -/
theorem C3_extract_retry_contract (maxRetries : Nat) (outcomes : Nat → AttemptOutcome)
    (text id url : String) (subject : Option String) (hpos : 0 < maxRetries) :
    ((∀ i, i < maxRetries → ∃ m, outcomes i = AttemptOutcome.failure m) →
      dictGet (extract_info_with_llm maxRetries outcomes text id url subject).record
          "extraction_successful" = some (JsonValue.bool false) ∧
      (∃ m, dictGet (extract_info_with_llm maxRetries outcomes text id url subject).record
          "llm_error_message" = some (JsonValue.str m)) ∧
      (extract_info_with_llm maxRetries outcomes text id url subject).attemptsMade =
        maxRetries ∧
      (extract_info_with_llm maxRetries outcomes text id url subject).sleeps =
        (List.range (maxRetries - 1)).map (fun i => 5 * (i + 1))) ∧
    (∀ k p, k < maxRetries →
      (∀ i, i < k → ∃ m, outcomes i = AttemptOutcome.failure m) →
      outcomes k = AttemptOutcome.success p →
      (extract_info_with_llm maxRetries outcomes text id url subject).attemptsMade = k + 1 ∧
      dictGet (extract_info_with_llm maxRetries outcomes text id url subject).record
          "extraction_successful" = some (JsonValue.bool true) ∧
      (extract_info_with_llm maxRetries outcomes text id url subject).sleeps =
        (List.range k).map (fun i => 5 * (i + 1))) := by
  constructor
  · intro hfail
    obtain ⟨h1, h2, ⟨m, hm, h3⟩, h4⟩ :=
      llmLoop_all_fail maxRetries outcomes (maxRetries - 1) 0
        (get_default_extracted_data id url subject text) (by omega)
        (fun i _ hi => hfail i hi)
    refine ⟨?_, ⟨m, h3⟩, h1, ?_⟩
    · rw [extract_info_with_llm, h4 "extraction_successful" (by decide)]
      exact dictGet_default_success_flag _ _ _ _
    · rw [extract_info_with_llm, h2]
      apply List.map_congr_left
      intro a _
      omega
  · intro k p hk hfail hs
    obtain ⟨h1, h2, d', h3, _⟩ :=
      llmLoop_success_after maxRetries outcomes k 0
        (get_default_extracted_data id url subject text) (by omega)
        (fun i _ hi => hfail i (by omega)) p (by simpa using hs)
    refine ⟨by simpa using h1, ?_, ?_⟩
    · rw [extract_info_with_llm, h3]
      exact dictGet_dictSet_self _ _ _
    · rw [extract_info_with_llm, h2]
      apply List.map_congr_left
      intro a _
      omega

/-- C5: in every record `extract` returns, each of the three scientific
boolean fields holds an actual boolean; and when the first attempt succeeds
with payload `p`, the stored boolean is exactly the coercion of the payload
value: a boolean is kept, a string is interpreted as
`value.lower() == "true"`, and anything else (including an absent key)
becomes false. -/
theorem C5_boolean_fields_normalized (maxRetries : Nat) (outcomes : Nat → AttemptOutcome)
    (text id url : String) (subject : Option String) (key : String)
    (hkey : key ∈ scientific_bool_keys) :
    (∃ b, dictGet (extract_info_with_llm maxRetries outcomes text id url subject).record key =
      some (JsonValue.bool b)) ∧
    (∀ p, 0 < maxRetries → outcomes 0 = AttemptOutcome.success p →
      dictGet (extract_info_with_llm maxRetries outcomes text id url subject).record key =
        some (JsonValue.bool (coerceOf (dictGet p key)))) := by
  constructor
  · exact llmLoop_sci_bool maxRetries outcomes key hkey maxRetries 0 _ (by omega)
      ⟨false, dictGet_default_sci_bool id url subject text key hkey⟩
  · intro p hpos hs
    rw [extract_info_with_llm, llmLoop_success maxRetries outcomes 0 _ p hpos hs]
    rw [dictGet_dictSet_ne _ _ _ _ (Ne.symm (sci_key_ne_success_flag key hkey))]
    rw [dictGet_coerce_booleans_mem _ _ hkey]
    rw [dictGet_mergeParsedLlmJson]
    by_cases hc : dictContains p key = true
    · rw [if_pos ⟨sci_key_mem_schema key hkey,
        by rw [hc, sci_key_not_identity key hkey]; rfl⟩]
      obtain ⟨v, hv⟩ := dictGet_isSome_of_contains p key hc
      rw [hv]
      rfl
    · have hcf : dictContains p key = false := by
        cases hcc : dictContains p key
        · rfl
        · exact absurd hcc hc
      rw [if_neg (fun hcond => by
        have h2 := hcond.2
        rw [hcf] at h2
        simp at h2)]
      rw [dictGet_default_sci_bool id url subject text key hkey]
      rw [dictGet_eq_none_of_not_contains p key hcf]
      rfl

/-- C9: in every record `extract` returns, the `circular_id`,
`circular_url`, `subject` and `raw_text` fields are exactly the arguments
`extract` was called with; and the payload values under the keys
`circular_id`, `circular_url`, `subject`, `raw_text`,
`extraction_successful` and `llm_error_message` are never merged into the
record: removing them from every payload leaves the result unchanged. -/
theorem C9_identity_fields_frame (maxRetries : Nat) (outcomes : Nat → AttemptOutcome)
    (text id url : String) (subject : Option String) :
    dictGet (extract_info_with_llm maxRetries outcomes text id url subject).record
      "circular_id" = some (JsonValue.str id) ∧
    dictGet (extract_info_with_llm maxRetries outcomes text id url subject).record
      "circular_url" = some (JsonValue.str url) ∧
    dictGet (extract_info_with_llm maxRetries outcomes text id url subject).record
      "subject" = some (optStrToJson subject) ∧
    dictGet (extract_info_with_llm maxRetries outcomes text id url subject).record
      "raw_text" = some (JsonValue.str text) ∧
    extract_info_with_llm maxRetries (fun i => stripOutcome (outcomes i)) text id url
      subject = extract_info_with_llm maxRetries outcomes text id url subject := by
  refine ⟨?_, ?_, ?_, ?_, ?_⟩
  · rw [extract_info_with_llm, llmLoop_preserves maxRetries outcomes "circular_id"
      (by decide) (by decide) (by decide) (by decide) maxRetries 0 _ (by omega)]
    exact dictGet_default_circular_id _ _ _ _
  · rw [extract_info_with_llm, llmLoop_preserves maxRetries outcomes "circular_url"
      (by decide) (by decide) (by decide) (by decide) maxRetries 0 _ (by omega)]
    exact dictGet_default_circular_url _ _ _ _
  · rw [extract_info_with_llm, llmLoop_preserves maxRetries outcomes "subject"
      (by decide) (by decide) (by decide) (by decide) maxRetries 0 _ (by omega)]
    exact dictGet_default_subject _ _ _ _
  · rw [extract_info_with_llm, llmLoop_preserves maxRetries outcomes "raw_text"
      (by decide) (by decide) (by decide) (by decide) maxRetries 0 _ (by omega)]
    exact dictGet_default_raw_text _ _ _ _
  · rw [extract_info_with_llm, extract_info_with_llm]
    exact llmLoop_stripOutcome maxRetries outcomes maxRetries 0 _ (by omega)

/-- C2 is violated by the code: when the first attempt fails (here with a
timeout) and the second attempt succeeds, `extract_info_with_llm` marks the
record successful at llm_utils.py line 187 without resetting the
`llm_error_message` written by the failed attempt, so the returned record
has `extraction_successful = true` together with a non-null
`llm_error_message`. -/
theorem C2_stale_error_message_on_late_success :
    dictGet (extract_info_with_llm 3
      (fun i => if i = 0 then AttemptOutcome.failure "API Request Timeout (attempt 1)"
        else AttemptOutcome.success [])
      "some text" "40000" "http://example.org/40000" (some "subj")).record
      "extraction_successful" = some (JsonValue.bool true) ∧
    dictGet (extract_info_with_llm 3
      (fun i => if i = 0 then AttemptOutcome.failure "API Request Timeout (attempt 1)"
        else AttemptOutcome.success [])
      "some text" "40000" "http://example.org/40000" (some "subj")).record
      "llm_error_message" =
      some (JsonValue.str "API Request Timeout (attempt 1)") := by
  have hstep := llmLoop_failure_step 3
    (fun i => if i = 0 then AttemptOutcome.failure "API Request Timeout (attempt 1)"
      else AttemptOutcome.success [])
    0 (get_default_extracted_data "40000" "http://example.org/40000" (some "subj") "some text")
    "API Request Timeout (attempt 1)" (by omega) rfl
  have hsucc := llmLoop_success 3
    (fun i => if i = 0 then AttemptOutcome.failure "API Request Timeout (attempt 1)"
      else AttemptOutcome.success [])
    1 (dictSet (get_default_extracted_data "40000" "http://example.org/40000" (some "subj")
        "some text") "llm_error_message" (JsonValue.str "API Request Timeout (attempt 1)"))
    [] (by omega) rfl
  constructor
  · rw [extract_info_with_llm, hstep]
    simp only
    rw [hsucc]
    exact dictGet_dictSet_self _ _ _
  · rw [extract_info_with_llm, hstep]
    simp only
    rw [hsucc]
    simp only
    rw [dictGet_dictSet_ne _ _ _ _ (by decide)]
    rw [dictGet_coerce_booleans_not_mem _ _ (by decide)]
    rw [dictGet_mergeParsedLlmJson]
    rw [if_neg (fun hcond => by
      have h2 := hcond.2
      rw [show dictContains ([] : Dict) "llm_error_message" = false from rfl] at h2
      simp at h2)]
    exact dictGet_dictSet_self _ _ _

/-- C10: the default record contains every schema property as a key; the
three scientific boolean fields are present with value `false`, and every
schema field not among the nine explicitly supplied ones is present with
value `null`, so no schema field is ever absent. -/
theorem C10_default_record_schema_complete (i u : String) (s : Option String)
    (t : String) (prop : String) (hmem : prop ∈ schema_property_names) :
    dictContains (get_default_extracted_data i u s t) prop = true ∧
    (prop ∈ scientific_bool_keys →
      dictGet (get_default_extracted_data i u s t) prop = some (JsonValue.bool false)) ∧
    (prop ∉ ["circular_id", "circular_url", "subject", "raw_text",
        "extraction_successful", "llm_error_message", "is_trigger_event",
        "is_upper_limit", "multiple_bands_reported"] →
      dictGet (get_default_extracted_data i u s t) prop = some JsonValue.null) := by
  simp only [schema_property_names, schemaProperties, List.map_cons, List.map_nil] at hmem
  fin_cases hmem <;>
    refine ⟨by rw [get_default_extracted_data_eq]; simp [dictContains],
      fun hb => ?_, fun hn => ?_⟩ <;>
    first
      | exact absurd hb (by decide)
      | exact absurd (by decide) hn
      | (rw [get_default_extracted_data_eq]; simp [dictGet])

theorem C10_default_record_schema_complete_witness :
    "ra" ∈ schema_property_names ∧
    dictContains (get_default_extracted_data "1" "u" (some "s") "txt") "ra" = true ∧
    dictGet (get_default_extracted_data "1" "u" (some "s") "txt") "ra" =
      some JsonValue.null := by
  refine ⟨by decide, ?_, ?_⟩
  · exact (C10_default_record_schema_complete "1" "u" (some "s") "txt" "ra" (by decide)).1
  · exact (C10_default_record_schema_complete "1" "u" (some "s") "txt" "ra"
      (by decide)).2.2 (by decide)

theorem C3_extract_retry_contract_witness :
    (0 : Nat) < 2 ∧
    (extract_info_with_llm 2 (fun _ => AttemptOutcome.failure "boom")
      "t" "1" "u" none).attemptsMade = 2 ∧
    (extract_info_with_llm 2 (fun _ => AttemptOutcome.failure "boom")
      "t" "1" "u" none).sleeps = [5] := by
  refine ⟨by decide, ?_, ?_⟩
  · exact ((C3_extract_retry_contract 2 (fun _ => AttemptOutcome.failure "boom")
      "t" "1" "u" none (by decide)).1 (fun i _ => ⟨"boom", rfl⟩)).2.2.1
  · have := ((C3_extract_retry_contract 2 (fun _ => AttemptOutcome.failure "boom")
      "t" "1" "u" none (by decide)).1 (fun i _ => ⟨"boom", rfl⟩)).2.2.2
    simpa using this

theorem C5_boolean_fields_normalized_witness :
    "is_upper_limit" ∈ scientific_bool_keys ∧
    dictGet (extract_info_with_llm 1
      (fun _ => AttemptOutcome.success [("is_upper_limit", JsonValue.str "TRUE")])
      "t" "1" "u" none).record "is_upper_limit" = some (JsonValue.bool true) := by
  refine ⟨by decide, ?_⟩
  have := (C5_boolean_fields_normalized 1
    (fun _ => AttemptOutcome.success [("is_upper_limit", JsonValue.str "TRUE")])
    "t" "1" "u" none "is_upper_limit" (by decide)).2
    [("is_upper_limit", JsonValue.str "TRUE")] (by decide) rfl
  rw [this]
  rfl

/-! ## Lemmas about the text retriever -/

theorem string_length_eq_data_length (t : String) : t.length = t.data.length := rfl

theorem length_zero_of_isEmpty (t : String) (h : t.data.isEmpty = true) :
    t.length = 0 := by
  rw [string_length_eq_data_length]
  cases hd : t.data with
  | nil => rfl
  | cons c cs => rw [hd] at h; simp [List.isEmpty] at h

theorem isEmpty_false_of_length_pos (t : String) (h : t.data.isEmpty = false) :
    0 < t.length := by
  rw [string_length_eq_data_length]
  cases hd : t.data with
  | nil => rw [hd] at h; simp [List.isEmpty] at h
  | cons c cs => simp

/-- The page text kept after the placeholder check of gcn_utils.py lines
140-144: a page text longer than 50 characters that starts with a
placeholder prefix is discarded. -/
def keptPageText : Option String → Option String
  | none => none
  | some t => if t.length > 50 && isPlaceholderText t then none else some t

theorem robust_raw1_eq_kept (pageText : Option String) :
    (if pyTruthy pageText && (pageText.getD "").length > 50 then
      if isPlaceholderText (pageText.getD "") then none else pageText
    else pageText) = keptPageText pageText := by
  cases pageText with
  | none => simp [pyTruthy, keptPageText]
  | some t =>
    by_cases hemp : t.data.isEmpty = true
    · have hlen : t.length = 0 := length_zero_of_isEmpty t hemp
      simp [pyTruthy, hemp, keptPageText, hlen]
    · have hemp' : t.data.isEmpty = false := by
        cases he : t.data.isEmpty
        · rfl
        · exact absurd he hemp
      by_cases h50 : t.length > 50
      · by_cases hp : isPlaceholderText t = true
        · simp [pyTruthy, hemp', keptPageText, h50, hp]
        · have hp' : isPlaceholderText t = false := by
            cases hpp : isPlaceholderText t
            · rfl
            · exact absurd hpp hp
          simp [pyTruthy, hemp', keptPageText, h50, hp']
      · simp [pyTruthy, hemp', keptPageText, h50]

theorem get_circular_text_robust_instr_eq (p g : Option String) :
    get_circular_text_robust_instr p g =
      if !pyTruthy (keptPageText p) || ((keptPageText p).getD "").length < 50 then
        if pyTruthy g && (g.getD "").length > ((keptPageText p).getD "").length then
          (g, true)
        else if pyTruthy (keptPageText p) then (keptPageText p, true)
        else (none, true)
      else (keptPageText p, false) := by
  simp only [get_circular_text_robust_instr]
  rw [robust_raw1_eq_kept]

theorem robust_instr_snd_of_outer_true (p g : Option String)
    (h : (!pyTruthy (keptPageText p) || ((keptPageText p).getD "").length < 50) = true) :
    (get_circular_text_robust_instr p g).2 = true := by
  rw [get_circular_text_robust_instr_eq, if_pos h]
  split_ifs <;> rfl

theorem robust_instr_snd_of_outer_false (p g : Option String)
    (h : ¬(!pyTruthy (keptPageText p) || ((keptPageText p).getD "").length < 50) = true) :
    (get_circular_text_robust_instr p g).2 = false := by
  rw [get_circular_text_robust_instr_eq, if_neg h]

theorem kept_eq_page_of_outer_false (p : Option String)
    (h : ¬(!pyTruthy (keptPageText p) || ((keptPageText p).getD "").length < 50) = true) :
    keptPageText p = p := by
  cases p with
  | none => exact absurd (by simp [keptPageText, pyTruthy]) h
  | some t =>
    by_cases hdisc : (t.length > 50 && isPlaceholderText t) = true
    · exact absurd (by simp [keptPageText, hdisc, pyTruthy]) h
    · simp only [keptPageText]
      rw [if_neg hdisc]

theorem robust_outer_iff (p : Option String) :
    (!pyTruthy (keptPageText p) || ((keptPageText p).getD "").length < 50) = true ↔
      (match p with
       | none => True
       | some t => t.length < 50 ∨ (t.length > 50 ∧ isPlaceholderText t = true)) := by
  cases p with
  | none => simp [keptPageText, pyTruthy]
  | some t =>
    by_cases h50 : t.length > 50
    · by_cases hp : isPlaceholderText t = true
      · have hdisc : (decide (t.length > 50) && isPlaceholderText t) = true := by
          simp [h50, hp]
        simp only [keptPageText, hdisc, if_true, Option.getD, pyTruthy]
        simp
        exact Or.inr ⟨h50, hp⟩
      · have hp' : isPlaceholderText t = false := by
          cases hpp : isPlaceholderText t
          · rfl
          · exact absurd hpp hp
        have hdisc : (decide (t.length > 50) && isPlaceholderText t) = false := by
          simp [hp']
        simp only [keptPageText, hdisc]
        simp only [show ((false = true) = False) by simp, if_false]
        by_cases hemp : t.data.isEmpty = true
        · have hlen : t.length = 0 := length_zero_of_isEmpty t hemp
          omega
        · have hemp' : t.data.isEmpty = false := by
            cases he : t.data.isEmpty
            · rfl
            · exact absurd he hemp
          simp [pyTruthy, hemp', hp']
    · have hdisc : (decide (t.length > 50) && isPlaceholderText t) = false := by
        simp [h50]
      simp only [keptPageText, hdisc]
      simp only [show ((false = true) = False) by simp, if_false]
      by_cases hemp : t.data.isEmpty = true
      · have hlen : t.length = 0 := length_zero_of_isEmpty t hemp
        simp [pyTruthy, hemp]
        omega
      · have hemp' : t.data.isEmpty = false := by
          cases he : t.data.isEmpty
          · rfl
          · exact absurd he hemp
        simp [pyTruthy, hemp']
        omega

/-- C4 as stated is false: here the primary page text (51 characters,
placeholder-prefixed) and the fallback text ("y", 1 character) are both
non-null, the fallback is strictly shorter than the page text, yet the
function returns the fallback, because the placeholder discard resets the
length comparison baseline to the empty string (gcn_utils.py line 150
compares against `len(raw_text or "")` after `raw_text` was set to `None`
at line 144). -/
theorem C4_counterexample_fallback_shorter_than_page :
    get_circular_text_robust
      (some ("The GCN Circular system is evolving." ++ "xxxxxxxxxxxxxxx"))
      (some "y") = some "y" ∧
    ("y" : String).length <
      ("The GCN Circular system is evolving." ++ "xxxxxxxxxxxxxxx").length ∧
    (some ("The GCN Circular system is evolving." ++ "xxxxxxxxxxxxxxx") :
      Option String) ≠ none := by
  refine ⟨by decide, by decide, by decide⟩

/-- C4 amended: the fallback is tried exactly when the page text is null,
shorter than 50 characters, or longer than 50 characters and starting with
a placeholder prefix (a placeholder page text of exactly 50 characters is
kept and the fallback is not tried). A placeholder page text longer than 50
characters is discarded. When the fallback is tried, the fallback text is
returned if it is non-empty and strictly longer than the retained page text
(length 0 when the page text was null, empty or discarded); otherwise the
retained page text is returned if truthy, and null otherwise. When the
fallback is not tried, the page text is returned. The claim's two worked
examples hold as stated. -/
theorem C4_text_fallback_characterization :
    (∀ (pageText gcn3Text : Option String),
      ((get_circular_text_robust_instr pageText gcn3Text).2 = true ↔
        (match pageText with
         | none => True
         | some t => t.length < 50 ∨ (t.length > 50 ∧ isPlaceholderText t = true))) ∧
      ((get_circular_text_robust_instr pageText gcn3Text).2 = false →
        get_circular_text_robust pageText gcn3Text = pageText) ∧
      ((get_circular_text_robust_instr pageText gcn3Text).2 = true →
        get_circular_text_robust pageText gcn3Text =
          (if pyTruthy gcn3Text &&
              (gcn3Text.getD "").length > ((keptPageText pageText).getD "").length then
            gcn3Text
          else if pyTruthy (keptPageText pageText) then keptPageText pageText
          else none))) ∧
    (∀ t f : String, t.length = 30 → f.length = 80 →
      get_circular_text_robust (some t) (some f) = some f) ∧
    (∀ t : String, t.length = 200 → isPlaceholderText t = false →
      get_circular_text_robust (some t) none = some t) := by
  have main : ∀ (pageText gcn3Text : Option String),
      ((get_circular_text_robust_instr pageText gcn3Text).2 = true ↔
        (match pageText with
         | none => True
         | some t => t.length < 50 ∨ (t.length > 50 ∧ isPlaceholderText t = true))) ∧
      ((get_circular_text_robust_instr pageText gcn3Text).2 = false →
        get_circular_text_robust pageText gcn3Text = pageText) ∧
      ((get_circular_text_robust_instr pageText gcn3Text).2 = true →
        get_circular_text_robust pageText gcn3Text =
          (if pyTruthy gcn3Text &&
              (gcn3Text.getD "").length > ((keptPageText pageText).getD "").length then
            gcn3Text
          else if pyTruthy (keptPageText pageText) then keptPageText pageText
          else none)) := by
    intro p g
    by_cases houter :
        (!pyTruthy (keptPageText p) || ((keptPageText p).getD "").length < 50) = true
    · refine ⟨?_, ?_, ?_⟩
      · rw [robust_instr_snd_of_outer_true p g houter]
        simp only [true_iff]
        exact (robust_outer_iff p).mp houter
      · intro hf
        rw [robust_instr_snd_of_outer_true p g houter] at hf
        cases hf
      · intro _
        rw [get_circular_text_robust, get_circular_text_robust_instr_eq, if_pos houter]
        split_ifs <;> rfl
    · refine ⟨?_, ?_, ?_⟩
      · rw [robust_instr_snd_of_outer_false p g houter]
        constructor
        · intro h; cases h
        · intro hmatch; exact absurd ((robust_outer_iff p).mpr hmatch) houter
      · intro _
        rw [get_circular_text_robust, get_circular_text_robust_instr_eq, if_neg houter]
        exact kept_eq_page_of_outer_false p houter
      · intro ht
        rw [robust_instr_snd_of_outer_false p g houter] at ht
        cases ht
  refine ⟨main, ?_, ?_⟩
  · intro t f ht hf
    have hkept : keptPageText (some t) = some t := by
      simp [keptPageText, ht]
    have houter :
        (!pyTruthy (keptPageText (some t)) ||
          ((keptPageText (some t)).getD "").length < 50) = true := by
      rw [hkept]
      simp [ht]
    have hftruthy : pyTruthy (some f) = true := by
      simp only [pyTruthy]
      cases hd : f.data with
      | nil =>
        rw [string_length_eq_data_length, hd] at hf
        simp at hf
      | cons c cs => simp [hd, List.isEmpty]
    rw [get_circular_text_robust, get_circular_text_robust_instr_eq, if_pos houter,
      if_pos (by rw [hkept, hftruthy]; simp [hf, ht])]
  · intro t ht hp
    have hkept : keptPageText (some t) = some t := by
      simp [keptPageText, hp]
    have httruthy : pyTruthy (some t) = true := by
      simp only [pyTruthy]
      cases hd : t.data with
      | nil =>
        rw [string_length_eq_data_length, hd] at ht
        simp at ht
      | cons c cs => simp [hd, List.isEmpty]
    have houter :
        ¬(!pyTruthy (keptPageText (some t)) ||
          ((keptPageText (some t)).getD "").length < 50) = true := by
      rw [hkept, httruthy]
      simp [ht]
    rw [get_circular_text_robust, get_circular_text_robust_instr_eq, if_neg houter, hkept]

theorem C4_text_fallback_characterization_witness :
    (String.mk (List.replicate 30 'a')).length = 30 ∧
    (String.mk (List.replicate 80 'b')).length = 80 ∧
    get_circular_text_robust (some (String.mk (List.replicate 30 'a')))
      (some (String.mk (List.replicate 80 'b'))) =
      some (String.mk (List.replicate 80 'b')) := by
  refine ⟨by decide, by decide, ?_⟩
  exact C4_text_fallback_characterization.2.1 _ _ (by decide) (by decide)

/-! ## Lemmas about the polling loop -/

theorem stepItem_contained (sb : Option Int) (env : String → CircEnv)
    (acc : CycleAcc) (c : CircInfo)
    (h : acc.state.processedIds.contains c.id = true) :
    stepItem sb env acc c = { acc with events := acc.events ++ [noEvent] } := by
  have h' : c.id ∈ acc.state.processedIds := by simpa using h
  cases hp : pyParseInt c.id with
  | none => simp [stepItem, hp, h']
  | some n =>
    cases sb with
    | none => simp [stepItem, stepProcess, hp, h']
    | some f => by_cases hn : n < f <;> simp [stepItem, stepProcess, hp, h', hn]

theorem stepItem_mono_contains (sb : Option Int) (env : String → CircEnv)
    (acc : CycleAcc) (c : CircInfo) (x : String)
    (h : acc.state.processedIds.contains x = true) :
    (stepItem sb env acc c).state.processedIds.contains x = true := by
  have h' : x ∈ acc.state.processedIds := by simpa using h
  by_cases hc : acc.state.processedIds.contains c.id = true
  · rw [stepItem_contained sb env acc c hc]
    exact h
  · have hc' : c.id ∉ acc.state.processedIds := by
      intro hmem
      exact hc (by simpa using hmem)
    cases hp : pyParseInt c.id with
    | none => simp [stepItem, hp, hc', List.mem_append, h']
    | some n =>
      cases sb with
      | none => simp [stepItem, stepProcess, hp, hc', List.mem_append, h']
      | some f =>
        by_cases hn : n < f <;>
          simp [stepItem, stepProcess, hp, hc', hn, List.mem_append, h']

theorem stepItem_adds_contains (sb : Option Int) (env : String → CircEnv)
    (acc : CycleAcc) (c : CircInfo) :
    (stepItem sb env acc c).state.processedIds.contains c.id = true := by
  by_cases hc : acc.state.processedIds.contains c.id = true
  · rw [stepItem_contained sb env acc c hc]
    exact hc
  · have hc' : c.id ∉ acc.state.processedIds := by
      intro hmem
      exact hc (by simpa using hmem)
    cases hp : pyParseInt c.id with
    | none => simp [stepItem, hp, hc', List.mem_append]
    | some n =>
      cases sb with
      | none => simp [stepItem, stepProcess, hp, hc', List.mem_append]
      | some f =>
        by_cases hn : n < f <;>
          simp [stepItem, stepProcess, hp, hc', hn, List.mem_append]

theorem foldl_stepItem_mono (sb : Option Int) (env : String → CircEnv) :
    ∀ (l : List CircInfo) (acc : CycleAcc) (x : String),
      acc.state.processedIds.contains x = true →
      (l.foldl (stepItem sb env) acc).state.processedIds.contains x = true := by
  intro l
  induction l with
  | nil => intro acc x h; exact h
  | cons c l ih =>
    intro acc x h
    rw [List.foldl_cons]
    exact ih _ x (stepItem_mono_contains sb env acc c x h)

theorem foldl_stepItem_all_contained (sb : Option Int) (env : String → CircEnv) :
    ∀ (l : List CircInfo) (acc : CycleAcc) (c : CircInfo), c ∈ l →
      (l.foldl (stepItem sb env) acc).state.processedIds.contains c.id = true := by
  intro l
  induction l with
  | nil => intro acc c hc; cases hc
  | cons c' l ih =>
    intro acc c hc
    rw [List.foldl_cons]
    rcases List.mem_cons.mp hc with h | h
    · subst h
      exact foldl_stepItem_mono sb env l _ c.id (stepItem_adds_contains sb env acc c)
    · exact ih _ c h

theorem foldl_stepItem_noop (sb : Option Int) (env : String → CircEnv) :
    ∀ (l : List CircInfo) (acc : CycleAcc),
      (∀ c ∈ l, acc.state.processedIds.contains c.id = true) →
      (l.foldl (stepItem sb env) acc).state = acc.state ∧
      (l.foldl (stepItem sb env) acc).newCount = acc.newCount ∧
      (l.foldl (stepItem sb env) acc).skipCount = acc.skipCount ∧
      (l.foldl (stepItem sb env) acc).events =
        acc.events ++ List.replicate l.length noEvent := by
  intro l
  induction l with
  | nil => intro acc _; exact ⟨rfl, rfl, rfl, by simp⟩
  | cons c l ih =>
    intro acc h
    rw [List.foldl_cons, stepItem_contained sb env acc c (h c (List.mem_cons_self _ _))]
    obtain ⟨h1, h2, h3, h4⟩ := ih { acc with events := acc.events ++ [noEvent] }
      (fun c' hc' => h c' (List.mem_cons_of_mem _ hc'))
    refine ⟨h1, h2, h3, ?_⟩
    rw [h4]
    simp [List.replicate_succ]

/-- C6: with an ID floor configured, an unseen reference whose numeric
identifier is below the floor is added to the in-memory set and the on-disk
ledger, but no record is appended and no side effect happens (no text
retrieval, no extraction, no notification); an unseen reference at or above
the floor is handed to `process_single_circular` (text retrieval runs), its
record is appended and the identifier is ledgered. -/
theorem C6_id_floor_suppression (floorId : Int) (env : String → CircEnv)
    (acc : CycleAcc) (c : CircInfo) (n : Int)
    (hparse : pyParseInt c.id = some n)
    (hunseen : acc.state.processedIds.contains c.id = false) :
    (n < floorId →
      (stepItem (some floorId) env acc c).state.processedIds =
        acc.state.processedIds ++ [c.id] ∧
      (stepItem (some floorId) env acc c).state.ledgerFile =
        acc.state.ledgerFile ++ [c.id] ∧
      (stepItem (some floorId) env acc c).state.results = acc.state.results ∧
      (stepItem (some floorId) env acc c).events = acc.events ++ [noEvent] ∧
      (stepItem (some floorId) env acc c).newCount = acc.newCount) ∧
    (floorId ≤ n →
      (stepItem (some floorId) env acc c).state.processedIds =
        acc.state.processedIds ++ [c.id] ∧
      (stepItem (some floorId) env acc c).state.ledgerFile =
        acc.state.ledgerFile ++ [c.id] ∧
      (stepItem (some floorId) env acc c).state.results =
        (process_single_circular (env c.id) c acc.state.results).1 ∧
      (stepItem (some floorId) env acc c).events =
        acc.events ++ [(process_single_circular (env c.id) c acc.state.results).2] ∧
      (stepItem (some floorId) env acc c).newCount = acc.newCount + 1 ∧
      (process_single_circular (env c.id) c acc.state.results).2.textFetched = true) := by
  have hunseen' : c.id ∉ acc.state.processedIds := by
    intro hmem
    rw [show acc.state.processedIds.contains c.id = true by simpa using hmem] at hunseen
    cases hunseen
  constructor
  · intro hlt
    simp [stepItem, hparse, hlt, hunseen']
  · intro hge
    have hlt : ¬n < floorId := by omega
    refine ⟨?_, ?_, ?_, ?_, ?_, ?_⟩ <;>
      simp [stepItem, stepProcess, hparse, hlt, hunseen', process_single_circular]
    by_cases htr : pyTruthy (get_circular_text_robust (env c.id).pageText
      (env c.id).gcn3Text) = true <;> simp [htr]

/-- C7: running the same bulletin list again from the state the first pass
produced (every identifier of the list is then in the ledger) changes
nothing: the loop state (including the result list and the ledger) is
unchanged, no new item is processed, and every entry produces no side
effect at all (no retrieval, no extraction, no record, no notification). -/
theorem C7_second_pass_idempotent (sb : Option Int) (env : String → CircEnv)
    (st : LoopState) (cs : List CircInfo) :
    (runCycle sb env (runCycle sb env st cs).state cs).state =
      (runCycle sb env st cs).state ∧
    (runCycle sb env (runCycle sb env st cs).state cs).state.results =
      (runCycle sb env st cs).state.results ∧
    (runCycle sb env (runCycle sb env st cs).state cs).newCount = 0 ∧
    (runCycle sb env (runCycle sb env st cs).state cs).events =
      List.replicate cs.length noEvent := by
  have hall : ∀ c ∈ cs,
      (runCycle sb env st cs).state.processedIds.contains c.id = true := by
    intro c hc
    exact foldl_stepItem_all_contained sb env cs.reverse _ c (List.mem_reverse.mpr hc)
  have h := foldl_stepItem_noop sb env cs.reverse
    { state := (runCycle sb env st cs).state, events := [], newCount := 0, skipCount := 0 }
    (fun c hc => hall c (List.mem_reverse.mp hc))
  refine ⟨h.1, by rw [show (runCycle sb env (runCycle sb env st cs).state cs).state =
      (runCycle sb env st cs).state from h.1], h.2.1, ?_⟩
  have h4 := h.2.2.2
  simp only [List.nil_append] at h4
  rw [show (runCycle sb env (runCycle sb env st cs).state cs).events =
    List.replicate cs.reverse.length noEvent from h4]
  simp

/-! ## Model of the `json` module (serialization used by `data_manager.py`)

`save_output_data` serializes with `json.dump(data_list, f, indent=4,
ensure_ascii=False)` and `load_output_data` parses with `json.loads`.
The two are modelled here over the `JsonValue` type: `dumpVal` produces the
indented text `json.dump` produces, and `parseValue` reads the JSON grammar
the way `json.loads` does (whitespace-tolerant, escape sequences in
strings, optional sign on integers). The parser carries a fuel argument
bounding its recursion depth; `parseJson` passes three times the input
length plus three, which exceeds the depth any parse of that input can
reach, so the fuel never cuts a parse short. -/

/-- The left brace character (written via its code point). -/
def lbrace : Char := Char.ofNat 123

/-- The right brace character (written via its code point). -/
def rbrace : Char := Char.ofNat 125

/-- JSON whitespace accepted between tokens. -/
def jsonWs (c : Char) : Bool :=
  c = ' ' || c = '\t' || c = '\n' || c = '\r'

/-- Skip leading JSON whitespace. -/
def skipWs : List Char → List Char
  | [] => []
  | c :: cs => if jsonWs c then skipWs cs else c :: cs

/-- The decimal digit character for `d < 10`. -/
def digitChar (d : Nat) : Char := Char.ofNat (48 + d)

/-- The decimal digits of `n`, most significant first. -/
def natToChars (n : Nat) : List Char :=
  if n < 10 then [digitChar n]
  else natToChars (n / 10) ++ [digitChar (n % 10)]
termination_by n
decreasing_by exact Nat.div_lt_self (by omega) (by omega)

/-- The lower-case hexadecimal digit character for `d < 16`. -/
def hexDigitChar (d : Nat) : Char :=
  if d < 10 then Char.ofNat (48 + d) else Char.ofNat (87 + d)

/-- The value of a hexadecimal digit character. -/
def hexVal (c : Char) : Option Nat :=
  if '0' ≤ c ∧ c ≤ '9' then some (c.toNat - 48)
  else if 'a' ≤ c ∧ c ≤ 'f' then some (c.toNat - 87)
  else if 'A' ≤ c ∧ c ≤ 'F' then some (c.toNat - 55)
  else none

/-- How `json.dump(..., ensure_ascii=False)` writes one character inside a
string literal: the seven short escapes, `\u00xx` for other control
characters, everything else verbatim. -/
def escapeChar (c : Char) : List Char :=
  if c = '"' then ['\\', '"']
  else if c = '\\' then ['\\', '\\']
  else if c = '\n' then ['\\', 'n']
  else if c = '\t' then ['\\', 't']
  else if c = '\r' then ['\\', 'r']
  else if c = Char.ofNat 8 then ['\\', 'b']
  else if c = Char.ofNat 12 then ['\\', 'f']
  else if c.toNat < 32 then
    ['\\', 'u', '0', '0', hexDigitChar (c.toNat / 16), hexDigitChar (c.toNat % 16)]
  else [c]

/-- Escape a whole string body. -/
def escapeChars : List Char → List Char
  | [] => []
  | c :: cs => escapeChar c ++ escapeChars cs

/-- The indentation `json.dump(..., indent=4)` puts before an element at
nesting level `lvl`. -/
def indentChars (lvl : Nat) : List Char := List.replicate (4 * lvl) ' '

/-- Read a string body (after the opening quote) up to the closing quote,
resolving escape sequences the way `json.loads` does. -/
def parseStringBody : List Char → Option (List Char × List Char)
  | [] => none
  | c :: cs =>
    if c = '"' then some ([], cs)
    else if c = '\\' then
      match cs with
      | [] => none
      | e :: cs2 =>
        if e = '"' then (parseStringBody cs2).map (fun p => ('"' :: p.1, p.2))
        else if e = '\\' then (parseStringBody cs2).map (fun p => ('\\' :: p.1, p.2))
        else if e = '/' then (parseStringBody cs2).map (fun p => ('/' :: p.1, p.2))
        else if e = 'n' then (parseStringBody cs2).map (fun p => ('\n' :: p.1, p.2))
        else if e = 't' then (parseStringBody cs2).map (fun p => ('\t' :: p.1, p.2))
        else if e = 'r' then (parseStringBody cs2).map (fun p => ('\r' :: p.1, p.2))
        else if e = 'b' then
          (parseStringBody cs2).map (fun p => (Char.ofNat 8 :: p.1, p.2))
        else if e = 'f' then
          (parseStringBody cs2).map (fun p => (Char.ofNat 12 :: p.1, p.2))
        else if e = 'u' then
          match cs2 with
          | h1 :: h2 :: h3 :: h4 :: cs3 =>
            match hexVal h1, hexVal h2, hexVal h3, hexVal h4 with
            | some d1, some d2, some d3, some d4 =>
              (parseStringBody cs3).map
                (fun p => (Char.ofNat (((d1 * 16 + d2) * 16 + d3) * 16 + d4) :: p.1, p.2))
            | _, _, _, _ => none
          | _ => none
        else none
    else (parseStringBody cs).map (fun p => (c :: p.1, p.2))

/-- Accumulate decimal digits. -/
def parseNatAux : Nat → List Char → Nat × List Char
  | acc, [] => (acc, [])
  | acc, c :: cs =>
    if c.isDigit then parseNatAux (10 * acc + (c.toNat - 48)) cs else (acc, c :: cs)

/-- Read a non-empty run of decimal digits. -/
def parseNat : List Char → Option (Nat × List Char)
  | [] => none
  | c :: cs => if c.isDigit then some (parseNatAux (c.toNat - 48) cs) else none

/-- A parsed member list becomes a Python dict the way `json.loads` builds
one: inserting each pair in order (a later duplicate key overwrites an
earlier one). -/
def dictFromPairs (fs : List (String × JsonValue)) : Dict :=
  fs.foldl (fun d kv => dictSet d kv.1 kv.2) []

mutual
/-- Read one JSON value, as `json.loads` does. `fuel` bounds the recursion
depth. -/
def parseValue : Nat → List Char → Option (JsonValue × List Char)
  | 0, _ => none
  | fuel + 1, input =>
    match skipWs input with
    | [] => none
    | c :: rest =>
      if c = 'n' then
        match rest with
        | 'u' :: 'l' :: 'l' :: rest2 => some (JsonValue.null, rest2)
        | _ => none
      else if c = 't' then
        match rest with
        | 'r' :: 'u' :: 'e' :: rest2 => some (JsonValue.bool true, rest2)
        | _ => none
      else if c = 'f' then
        match rest with
        | 'a' :: 'l' :: 's' :: 'e' :: rest2 => some (JsonValue.bool false, rest2)
        | _ => none
      else if c = '"' then
        (parseStringBody rest).map (fun p => (JsonValue.str (String.mk p.1), p.2))
      else if c = '[' then
        match skipWs rest with
        | [] => none
        | c2 :: rest2 =>
          if c2 = ']' then some (JsonValue.arr [], rest2)
          else (parseElems fuel rest).map (fun p => (JsonValue.arr p.1, p.2))
      else if c = lbrace then
        match skipWs rest with
        | [] => none
        | c2 :: rest2 =>
          if c2 = rbrace then some (JsonValue.obj [], rest2)
          else (parseMembers fuel rest).map
            (fun p => (JsonValue.obj (dictFromPairs p.1), p.2))
      else if c = '-' then
        (parseNat rest).map (fun p => (JsonValue.num (-(p.1 : Int)), p.2))
      else if c.isDigit then
        (parseNat (c :: rest)).map (fun p => (JsonValue.num (p.1 : Int), p.2))
      else none

/-- Read the comma-separated elements of a non-empty array, up to `]`. -/
def parseElems : Nat → List Char → Option (List JsonValue × List Char)
  | 0, _ => none
  | fuel + 1, input =>
    match parseValue fuel input with
    | none => none
    | some (v, rest) =>
      match skipWs rest with
      | [] => none
      | c :: rest2 =>
        if c = ',' then (parseElems fuel rest2).map (fun p => (v :: p.1, p.2))
        else if c = ']' then some ([v], rest2)
        else none

/-- Read the comma-separated members of a non-empty object, up to `}`. -/
def parseMembers : Nat → List Char → Option (List (String × JsonValue) × List Char)
  | 0, _ => none
  | fuel + 1, input =>
    match skipWs input with
    | [] => none
    | c :: rest =>
      if c = '"' then
        match parseStringBody rest with
        | none => none
        | some (keyChars, rest2) =>
          match skipWs rest2 with
          | [] => none
          | c2 :: rest3 =>
            if c2 = ':' then
              match parseValue fuel rest3 with
              | none => none
              | some (v, rest4) =>
                match skipWs rest4 with
                | [] => none
                | c3 :: rest5 =>
                  if c3 = ',' then
                    (parseMembers fuel rest5).map
                      (fun p => ((String.mk keyChars, v) :: p.1, p.2))
                  else if c3 = rbrace then some ([(String.mk keyChars, v)], rest5)
                  else none
            else none
      else none
end

mutual
/-- Write one JSON value as `json.dump(..., indent=4, ensure_ascii=False)`
does, at nesting level `lvl`. -/
def dumpVal : Nat → JsonValue → List Char
  | _, JsonValue.null => ['n', 'u', 'l', 'l']
  | _, JsonValue.bool true => ['t', 'r', 'u', 'e']
  | _, JsonValue.bool false => ['f', 'a', 'l', 's', 'e']
  | _, JsonValue.str s => '"' :: (escapeChars s.data ++ ['"'])
  | _, JsonValue.num i =>
    if i < 0 then '-' :: natToChars i.natAbs else natToChars i.natAbs
  | _, JsonValue.arr [] => ['[', ']']
  | lvl, JsonValue.arr (x :: xs) =>
    '[' :: '\n' :: (dumpItems (lvl + 1) x xs ++ '\n' :: (indentChars lvl ++ [']']))
  | _, JsonValue.obj [] => [lbrace, rbrace]
  | lvl, JsonValue.obj ((k, v) :: kvs) =>
    lbrace :: '\n' ::
      (dumpFields (lvl + 1) k v kvs ++ '\n' :: (indentChars lvl ++ [rbrace]))
termination_by _ v => sizeOf v
decreasing_by all_goals (simp_wf; try omega)

/-- Write the elements of a non-empty array, each on its own indented line,
separated by `,`. -/
def dumpItems : Nat → JsonValue → List JsonValue → List Char
  | lvl, x, [] => indentChars lvl ++ dumpVal lvl x
  | lvl, x, y :: ys =>
    indentChars lvl ++ (dumpVal lvl x ++ ',' :: '\n' :: dumpItems lvl y ys)
termination_by _ x xs => 1 + sizeOf x + sizeOf xs
decreasing_by all_goals (simp_wf; try omega)

/-- Write the members of a non-empty object, each on its own indented line,
as `"key": value`, separated by `,`. -/
def dumpFields : Nat → String → JsonValue → List (String × JsonValue) → List Char
  | lvl, k, v, [] =>
    indentChars lvl ++ '"' :: (escapeChars k.data ++ '"' :: ':' :: ' ' :: dumpVal lvl v)
  | lvl, k, v, (k2, v2) :: kvs =>
    indentChars lvl ++ '"' :: (escapeChars k.data ++ '"' :: ':' :: ' ' ::
      (dumpVal lvl v ++ ',' :: '\n' :: dumpFields lvl k2 v2 kvs))
termination_by _ _ v kvs => 1 + sizeOf v + sizeOf kvs
decreasing_by all_goals (simp_wf; try omega)
end

mutual
/-- A bound on the parser fuel one value consumes. -/
def sizeV : JsonValue → Nat
  | JsonValue.null => 1
  | JsonValue.bool _ => 1
  | JsonValue.str _ => 1
  | JsonValue.num _ => 1
  | JsonValue.arr xs => 2 + sizeL xs
  | JsonValue.obj fs => 2 + sizeF fs

/-- Fuel bound for array elements. -/
def sizeL : List JsonValue → Nat
  | [] => 0
  | x :: xs => 2 + sizeV x + sizeL xs

/-- Fuel bound for object members. -/
def sizeF : List (String × JsonValue) → Nat
  | [] => 0
  | (_, v) :: fs => 2 + sizeV v + sizeF fs
end

/-- No duplicate keys in a key list. -/
def noDupKeys : List String → Bool
  | [] => true
  | k :: ks => !(ks.contains k) && noDupKeys ks

mutual
/-- Well-formedness of a JSON value produced by the Python program: every
object it contains is a dictionary, so its keys are pairwise distinct. -/
def wfV : JsonValue → Bool
  | JsonValue.null => true
  | JsonValue.bool _ => true
  | JsonValue.str _ => true
  | JsonValue.num _ => true
  | JsonValue.arr xs => wfL xs
  | JsonValue.obj fs => noDupKeys (fs.map Prod.fst) && wfF fs

/-- Well-formedness of a list of values. -/
def wfL : List JsonValue → Bool
  | [] => true
  | x :: xs => wfV x && wfL xs

/-- Well-formedness of the values of an object's members. -/
def wfF : List (String × JsonValue) → Bool
  | [] => true
  | (_, v) :: fs => wfV v && wfF fs
end

/-- The serialized form of the result list, as `json.dump(data_list, f,
indent=4, ensure_ascii=False)` writes it (data_manager.py line 66). -/
def dumpJson (records : List Dict) : List Char :=
  dumpVal 0 (JsonValue.arr (records.map JsonValue.obj))

/-- Model of `json.loads` on a whole file: parse one value, allow trailing
whitespace, reject anything else. -/
def parseJson (content : List Char) : Option JsonValue :=
  match parseValue (3 * content.length + 3) content with
  | some (v, rest) => if skipWs rest = [] then some v else none
  | none => none

/-! ## Model of `data_manager.py` -/

/-- The files `data_manager.py` touches: the output JSON file and its
temporary sibling (`OUTPUT_JSON_FILE + ".tmp"`). `none` means the file does
not exist; a file's content is its character sequence. -/
structure FS where
  output : Option (List Char)
  temp : Option (List Char)

/-- An uncaught Python exception. -/
inductive PyError where
  | nameError (name : String) : PyError
deriving DecidableEq

/-- Python `content.strip()` on a file's characters. -/
def pyStripChars (l : List Char) : List Char :=
  ((l.dropWhile pyIsSpace).reverse.dropWhile pyIsSpace).reverse

/-- Model of `load_output_data` (data_manager.py lines 33-54): a missing
file and a whitespace-only file yield the empty list; valid JSON is
returned as parsed. On a JSON decode failure the handler at line 43 first
evaluates `time.strftime(...)` (line 44) to build the backup name — but
`data_manager.py` imports only `os`, `json`, `logging` and two names from
`config`, so the name `time` is unbound and the handler itself raises
`NameError` before reaching the `os.rename` call; the sibling
`except Exception` clause at line 51 guards the `try` body, not code inside
another handler, so the `NameError` escapes `load_output_data`. -/
def load_output_data (fs : FS) : Except PyError JsonValue :=
  match fs.output with
  | none => Except.ok (JsonValue.arr [])
  | some content =>
    if pyStripChars content = [] then Except.ok (JsonValue.arr [])
    else
      match parseJson content with
      | some v => Except.ok v
      | none => Except.error (PyError.nameError "time")

/-- Model of `save_output_data` (data_manager.py lines 56-75): serialize the
record list into the temporary file, then atomically rename it over the
output file (`os.replace`, line 67), which removes the temporary file. -/
def save_output_data (data_list : List Dict) (fs : FS) : FS :=
  let serialized := dumpJson data_list
  let fs1 : FS := { fs with temp := some serialized }
  { output := fs1.temp, temp := none }

/-- C1 is violated by the code: on a result file whose content is not valid
JSON, `load_output_data` raises `NameError` (the module never imports
`time`, yet the decode-failure handler at data_manager.py line 44 calls
`time.strftime`), so no backup rename happens and the empty sequence is
never returned; startup fails instead of recovering. -/
theorem C1_corrupt_result_file_raises :
    load_output_data
      { output := some ("this is not valid json".data), temp := none } =
      Except.error (PyError.nameError "time") := by
  rfl

/-- A trivial external environment for the C6 witness. -/
def trivialCircEnv : String → CircEnv :=
  fun _ =>
    { pageText := none, gcn3Text := none, maxRetries := 0,
      llmOutcomes := fun _ => AttemptOutcome.failure "e" }

/-- An empty loop accumulator for the C6 witness. -/
def emptyCycleAcc : CycleAcc :=
  { state := { processedIds := [], ledgerFile := [], results := [] },
    events := [], newCount := 0, skipCount := 0 }

theorem C6_id_floor_suppression_witness :
    pyParseInt "42" = some 42 ∧
    (([] : List String).contains "42") = false ∧
    (stepItem (some 100) trivialCircEnv emptyCycleAcc
      { id := "42", url := "u", subject := none }).state.ledgerFile = ["42"] := by
  refine ⟨by decide, by decide, ?_⟩
  have h := (C6_id_floor_suppression 100 trivialCircEnv emptyCycleAcc
    { id := "42", url := "u", subject := none } 42 (by decide) (by decide)).1
    (by decide)
  rw [h.2.1]
  rfl

/-! ## Round-trip lemmas for the json model -/

/-- A character list that is all JSON whitespace. -/
def allWs (l : List Char) : Prop := ∀ c ∈ l, jsonWs c = true

/-- The first character, if any, is not a digit. -/
def nonDigitHead : List Char → Prop
  | [] => True
  | c :: _ => c.isDigit = false

theorem skipWs_append_allWs (l : List Char) (h : allWs l) (x : List Char) :
    skipWs (l ++ x) = skipWs x := by
  induction l with
  | nil => rfl
  | cons c cs ih =>
    rw [List.cons_append, skipWs, if_pos (h c (List.mem_cons_self _ _))]
    exact ih (fun c' hc' => h c' (List.mem_cons_of_mem _ hc'))

theorem skipWs_cons_not_ws (c : Char) (l : List Char) (h : jsonWs c = false) :
    skipWs (c :: l) = c :: l := by
  rw [skipWs, if_neg (by rw [h]; exact Bool.false_ne_true)]

theorem allWs_indent (lvl : Nat) : allWs (indentChars lvl) := by
  intro c hc
  rw [indentChars] at hc
  rw [List.eq_of_mem_replicate hc]
  decide

theorem allWs_nil : allWs [] := fun c hc => absurd hc (List.not_mem_nil c)

theorem allWs_cons (c : Char) (l : List Char) (hc : jsonWs c = true)
    (hl : allWs l) : allWs (c :: l) := by
  intro c' hc'
  rcases List.mem_cons.mp hc' with h | h
  · rw [h]; exact hc
  · exact hl c' h

theorem allWs_append (l1 l2 : List Char) (h1 : allWs l1) (h2 : allWs l2) :
    allWs (l1 ++ l2) := by
  intro c hc
  rcases List.mem_append.mp hc with h | h
  · exact h1 c h
  · exact h2 c h

theorem not_digit_of_ws (c : Char) (h : jsonWs c = true) : c.isDigit = false := by
  rw [jsonWs] at h
  rcases Bool.or_eq_true_iff.mp h with h | h
  · rcases Bool.or_eq_true_iff.mp h with h | h
    · rcases Bool.or_eq_true_iff.mp h with h | h <;>
        (rw [show c = _ from by simpa using h]; decide)
    · rw [show c = _ from by simpa using h]; decide
  · rw [show c = _ from by simpa using h]; decide

theorem nonDigitHead_allWs_append (w : List Char) (hw : allWs w)
    (c : Char) (hc : c.isDigit = false) (rest : List Char) :
    nonDigitHead (w ++ c :: rest) := by
  cases w with
  | nil => exact hc
  | cons a w' =>
    show a.isDigit = false
    exact not_digit_of_ws a (hw a (List.mem_cons_self _ _))

theorem parseValue_ws_prefix (fuel : Nat) (l x : List Char) (h : allWs l) :
    parseValue fuel (l ++ x) = parseValue fuel x := by
  cases fuel with
  | zero => rfl
  | succ fuel =>
    simp only [parseValue]
    rw [skipWs_append_allWs l h x]

theorem digitChar_spec (d : Nat) (h : d < 10) :
    (digitChar d).isDigit = true ∧ (digitChar d).toNat = 48 + d ∧
    jsonWs (digitChar d) = false ∧ digitChar d ≠ 'n' ∧ digitChar d ≠ 't' ∧
    digitChar d ≠ 'f' ∧ digitChar d ≠ '"' ∧ digitChar d ≠ '[' ∧
    digitChar d ≠ lbrace ∧ digitChar d ≠ '-' ∧ digitChar d ≠ ']' ∧
    digitChar d ≠ rbrace := by
  interval_cases d <;> exact ⟨rfl, rfl, rfl, by decide, by decide, by decide,
    by decide, by decide, by decide, by decide, by decide, by decide⟩

theorem natToChars_ne_nil (n : Nat) : natToChars n ≠ [] := by
  rw [natToChars]
  by_cases h : n < 10
  · rw [if_pos h]; exact fun hc => List.noConfusion hc
  · rw [if_neg h]
    intro hc
    rcases List.append_eq_nil.mp hc with ⟨_, h2⟩
    exact List.noConfusion h2

theorem natToChars_all_digit (n : Nat) : ∀ c ∈ natToChars n, c.isDigit = true := by
  induction n using Nat.strong_induction_on with
  | _ n ih =>
    intro c hc
    rw [natToChars] at hc
    by_cases h : n < 10
    · rw [if_pos h] at hc
      rcases List.mem_singleton.mp hc with h'
      rw [h']
      exact (digitChar_spec n h).1
    · rw [if_neg h] at hc
      rcases List.mem_append.mp hc with h' | h'
      · exact ih (n / 10) (Nat.div_lt_self (by omega) (by omega)) c h'
      · rw [List.eq_of_mem_singleton h']
        exact (digitChar_spec (n % 10) (Nat.mod_lt n (by omega))).1

theorem natToChars_head (n : Nat) :
    ∃ d cs, d < 10 ∧ natToChars n = digitChar d :: cs := by
  induction n using Nat.strong_induction_on with
  | _ n ih =>
    rw [natToChars]
    by_cases h : n < 10
    · rw [if_pos h]; exact ⟨n, [], h, rfl⟩
    · rw [if_neg h]
      obtain ⟨d, cs, hd, hcs⟩ := ih (n / 10) (Nat.div_lt_self (by omega) (by omega))
      exact ⟨d, cs ++ [digitChar (n % 10)], hd, by rw [hcs]; rfl⟩

/-- Accumulate the value of a digit run. -/
def foldDigits (acc : Nat) (ds : List Char) : Nat :=
  ds.foldl (fun a c => 10 * a + (c.toNat - 48)) acc

theorem foldDigits_natToChars (n : Nat) :
    ∀ acc, foldDigits acc (natToChars n) = acc * 10 ^ (natToChars n).length + n := by
  induction n using Nat.strong_induction_on with
  | _ n ih =>
    intro acc
    rw [natToChars]
    by_cases h : n < 10
    · rw [if_pos h]
      show 10 * acc + ((digitChar n).toNat - 48) = acc * 10 ^ 1 + n
      rw [(digitChar_spec n h).2.1]
      omega
    · rw [if_neg h]
      rw [foldDigits, List.foldl_append]
      rw [show List.foldl (fun a c => 10 * a + (c.toNat - 48)) acc (natToChars (n / 10)) =
        foldDigits acc (natToChars (n / 10)) from rfl]
      rw [ih (n / 10) (Nat.div_lt_self (by omega) (by omega)) acc]
      show 10 * (acc * 10 ^ (natToChars (n / 10)).length + n / 10) +
        ((digitChar (n % 10)).toNat - 48) = acc * 10 ^ (_ : List Char).length + n
      rw [(digitChar_spec (n % 10) (Nat.mod_lt n (by omega))).2.1]
      rw [List.length_append, List.length_singleton, pow_succ]
      have hdm := Nat.div_add_mod n 10
      have hm : n % 10 < 10 := Nat.mod_lt n (by omega)
      set A := 10 ^ (natToChars (n / 10)).length
      ring_nf
      omega

theorem parseNatAux_digits_append (ds : List Char)
    (hds : ∀ c ∈ ds, c.isDigit = true) :
    ∀ (acc : Nat) (rest : List Char), nonDigitHead rest →
      parseNatAux acc (ds ++ rest) = (foldDigits acc ds, rest) := by
  induction ds with
  | nil =>
    intro acc rest hrest
    cases rest with
    | nil => rfl
    | cons c cs =>
      show parseNatAux acc (c :: cs) = (acc, c :: cs)
      rw [parseNatAux, if_neg (by rw [show c.isDigit = false from hrest]; decide)]
  | cons c ds ih =>
    intro acc rest hrest
    rw [List.cons_append, parseNatAux,
      if_pos (hds c (List.mem_cons_self _ _)),
      ih (fun c' hc' => hds c' (List.mem_cons_of_mem _ hc')) _ rest hrest]
    rfl

theorem parseNat_natToChars (n : Nat) (rest : List Char) (hrest : nonDigitHead rest) :
    parseNat (natToChars n ++ rest) = some (n, rest) := by
  obtain ⟨d, cs, hd, hcs⟩ := natToChars_head n
  have hall := natToChars_all_digit n
  rw [hcs] at hall ⊢
  rw [List.cons_append, parseNat,
    if_pos (hall (digitChar d) (List.mem_cons_self _ _))]
  rw [parseNatAux_digits_append cs
    (fun c' hc' => hall c' (List.mem_cons_of_mem _ hc')) _ rest hrest]
  have hval : foldDigits ((digitChar d).toNat - 48) cs = n := by
    have h0 : foldDigits 0 (digitChar d :: cs) = n := by
      have := foldDigits_natToChars n 0
      rw [hcs] at this
      simpa using this
    rw [show foldDigits 0 (digitChar d :: cs) =
      foldDigits (10 * 0 + ((digitChar d).toNat - 48)) cs from rfl] at h0
    simpa using h0
  rw [hval]

theorem hexVal_hexDigitChar (d : Nat) (h : d < 16) :
    hexVal (hexDigitChar d) = some d := by
  interval_cases d <;> rfl

theorem hexVal_zero : hexVal '0' = some 0 := rfl

theorem parseStringBody_cons (c : Char) (cs : List Char) (h1 : ¬c = '"')
    (h2 : ¬c = '\\') :
    parseStringBody (c :: cs) =
      (parseStringBody cs).map (fun p => (c :: p.1, p.2)) := by
  conv_lhs => rw [parseStringBody.eq_def]
  simp only
  rw [if_neg h1, if_neg h2]

theorem parseStringBody_escape (s : List Char) :
    ∀ rest, parseStringBody (escapeChars s ++ '"' :: rest) = some (s, rest) := by
  induction s with
  | nil =>
    intro rest
    show parseStringBody ('"' :: rest) = some ([], rest)
    rw [parseStringBody.eq_def]
    simp
  | cons c cs ih =>
    intro rest
    show parseStringBody (escapeChar c ++ escapeChars cs ++ '"' :: rest) = _
    rw [escapeChar]
    by_cases h1 : c = '"'
    · subst h1
      show parseStringBody ('\\' :: '"' :: (escapeChars cs ++ '"' :: rest)) = _
      rw [parseStringBody.eq_def]
      simp [ih rest]
    · rw [if_neg h1]
      by_cases h2 : c = '\\'
      · subst h2
        show parseStringBody ('\\' :: '\\' :: (escapeChars cs ++ '"' :: rest)) = _
        rw [parseStringBody.eq_def]
        simp [ih rest]
      · rw [if_neg h2]
        by_cases h3 : c = '\n'
        · subst h3
          show parseStringBody ('\\' :: 'n' :: (escapeChars cs ++ '"' :: rest)) = _
          rw [parseStringBody.eq_def]
          simp [ih rest]
        · rw [if_neg h3]
          by_cases h4 : c = '\t'
          · subst h4
            show parseStringBody ('\\' :: 't' :: (escapeChars cs ++ '"' :: rest)) = _
            rw [parseStringBody.eq_def]
            simp [ih rest]
          · rw [if_neg h4]
            by_cases h5 : c = '\r'
            · subst h5
              show parseStringBody ('\\' :: 'r' :: (escapeChars cs ++ '"' :: rest)) = _
              rw [parseStringBody.eq_def]
              simp [ih rest]
            · rw [if_neg h5]
              by_cases h6 : c = Char.ofNat 8
              · subst h6
                show parseStringBody
                  ('\\' :: 'b' :: (escapeChars cs ++ '"' :: rest)) = _
                rw [parseStringBody.eq_def]
                simp [ih rest]
              · rw [if_neg h6]
                by_cases h7 : c = Char.ofNat 12
                · subst h7
                  show parseStringBody
                    ('\\' :: 'f' :: (escapeChars cs ++ '"' :: rest)) = _
                  rw [parseStringBody.eq_def]
                  simp [ih rest]
                · rw [if_neg h7]
                  by_cases h8 : c.toNat < 32
                  · rw [if_pos h8]
                    show parseStringBody
                      ('\\' :: 'u' :: '0' :: '0' :: hexDigitChar (c.toNat / 16) ::
                        hexDigitChar (c.toNat % 16) ::
                        (escapeChars cs ++ '"' :: rest)) = _
                    rw [parseStringBody.eq_def]
                    simp only [show (('\\' : Char) = '"') = False by simp,
                      show (('u' : Char) = '"') = False by simp,
                      show (('u' : Char) = '\\') = False by simp,
                      show (('u' : Char) = '/') = False by simp,
                      show (('u' : Char) = 'n') = False by simp,
                      show (('u' : Char) = 't') = False by simp,
                      show (('u' : Char) = 'r') = False by simp,
                      show (('u' : Char) = 'b') = False by simp,
                      show (('u' : Char) = 'f') = False by simp,
                      if_false, if_pos rfl]
                    rw [hexVal_zero,
                      hexVal_hexDigitChar (c.toNat / 16) (by omega),
                      hexVal_hexDigitChar (c.toNat % 16) (by omega)]
                    rw [ih rest]
                    have harith : ((0 * 16 + 0) * 16 + c.toNat / 16) * 16 +
                        c.toNat % 16 = c.toNat := by omega
                    simp only [if_pos trivial]
                    show some (Char.ofNat (((0 * 16 + 0) * 16 + c.toNat / 16) * 16 +
                      c.toNat % 16) :: cs, rest) = _
                    rw [harith, Char.ofNat_toNat]
                  · rw [if_neg h8]
                    show parseStringBody
                      (c :: (escapeChars cs ++ '"' :: rest)) = _
                    rw [parseStringBody_cons c _ h1 h2, ih rest]
                    rfl

theorem dictContains_eq_keys_contains (d : Dict) (k : String) :
    dictContains d k = (d.map Prod.fst).contains k := by
  induction d with
  | nil => rfl
  | cons p rest ih =>
    by_cases hp : p.1 = k
    · simp [dictContains, hp]
    · simp [dictContains, hp, ih, Ne.symm hp]

theorem dictSet_append_of_not_contains (acc : Dict) (k : String) (v : JsonValue)
    (h : dictContains acc k = false) : dictSet acc k v = acc ++ [(k, v)] := by
  induction acc with
  | nil => rfl
  | cons p rest ih =>
    by_cases hp : p.1 = k
    · simp [dictContains, hp] at h
    · simp only [dictContains, show decide (p.1 = k) = false by simp [hp],
        Bool.false_or] at h
      rw [dictSet, if_neg hp, ih h]
      rfl

theorem noDupKeys_not_contains_left (k : String) :
    ∀ (l1 l2 : List String), noDupKeys (l1 ++ k :: l2) = true →
      l1.contains k = false := by
  intro l1
  induction l1 with
  | nil => intro l2 _; rfl
  | cons a l1 ih =>
    intro l2 h
    rw [List.cons_append, noDupKeys] at h
    rcases Bool.and_eq_true_iff.mp h with ⟨h1, h2⟩
    have ha : ¬a = k := by
      intro hak
      subst hak
      have : (l1 ++ a :: l2).contains a = true := by
        simp
      rw [this] at h1
      cases h1
    rw [List.contains_cons]
    simp only [ih l2 h2, Bool.or_false]
    simpa using fun h' => ha h'.symm

theorem noDupKeys_tail (k : String) (l1 l2 : List String)
    (h : noDupKeys (l1 ++ k :: l2) = true) :
    noDupKeys ((l1 ++ [k]) ++ l2) = true := by
  rw [List.append_assoc]
  simpa using h

theorem dictFromPairs_go (fs : List (String × JsonValue)) :
    ∀ acc : Dict, noDupKeys ((acc ++ fs).map Prod.fst) = true →
      fs.foldl (fun d kv => dictSet d kv.1 kv.2) acc = acc ++ fs := by
  induction fs with
  | nil => intro acc _; simp
  | cons kv fs ih =>
    intro acc h
    rw [List.foldl_cons]
    have hnc : dictContains acc kv.1 = false := by
      rw [dictContains_eq_keys_contains]
      have : (acc ++ kv :: fs).map Prod.fst =
          acc.map Prod.fst ++ kv.1 :: fs.map Prod.fst := by simp
      rw [this] at h
      exact noDupKeys_not_contains_left kv.1 (acc.map Prod.fst) (fs.map Prod.fst) h
    rw [dictSet_append_of_not_contains acc kv.1 kv.2 hnc]
    have h2 : noDupKeys (((acc ++ [kv]) ++ fs).map Prod.fst) = true := by
      have : ((acc ++ [kv]) ++ fs) = acc ++ kv :: fs := by simp
      rw [this]
      exact h
    rw [ih (acc ++ [kv]) h2]
    simp

theorem dictFromPairs_eq_self (fs : List (String × JsonValue))
    (h : noDupKeys (fs.map Prod.fst) = true) : dictFromPairs fs = fs := by
  have := dictFromPairs_go fs [] (by simpa using h)
  simpa [dictFromPairs] using this

theorem dumpVal_head (lvl : Nat) (v : JsonValue) :
    ∃ c cs, dumpVal lvl v = c :: cs ∧ jsonWs c = false ∧ c ≠ ']' ∧ c ≠ rbrace := by
  cases v with
  | null =>
    refine ⟨'n', ['u', 'l', 'l'], ?_, rfl, by decide, by decide⟩
    simp [dumpVal]
  | bool b =>
    cases b with
    | true =>
      refine ⟨'t', ['r', 'u', 'e'], ?_, rfl, by decide, by decide⟩
      simp [dumpVal]
    | false =>
      refine ⟨'f', ['a', 'l', 's', 'e'], ?_, rfl, by decide, by decide⟩
      simp [dumpVal]
  | str s =>
    refine ⟨'"', escapeChars s.data ++ ['"'], ?_, rfl, by decide, by decide⟩
    simp [dumpVal]
  | num i =>
    by_cases h : i < 0
    · refine ⟨'-', natToChars i.natAbs, ?_, rfl, by decide, by decide⟩
      simp [dumpVal, h]
    · obtain ⟨d, cs, hd, hcs⟩ := natToChars_head i.natAbs
      obtain ⟨_, _, hws, _, _, _, _, _, _, _, hrb, hrb2⟩ := digitChar_spec d hd
      refine ⟨digitChar d, cs, ?_, hws, hrb, hrb2⟩
      rw [show dumpVal lvl (JsonValue.num i) =
        (if i < 0 then '-' :: natToChars i.natAbs else natToChars i.natAbs) from by
          simp [dumpVal]]
      rw [if_neg h, hcs]
  | arr xs =>
    cases xs with
    | nil =>
      refine ⟨'[', [']'], ?_, rfl, by decide, by decide⟩
      simp [dumpVal]
    | cons x xs =>
      refine ⟨'[', '\n' :: (dumpItems (lvl + 1) x xs ++ '\n' ::
        (indentChars lvl ++ [']'])), ?_, rfl, by decide, by decide⟩
      simp [dumpVal]
  | obj fs =>
    cases fs with
    | nil =>
      refine ⟨lbrace, [rbrace], ?_, by decide, by decide, by decide⟩
      simp [dumpVal]
    | cons kv kvs =>
      refine ⟨lbrace, '\n' :: (dumpFields (lvl + 1) kv.1 kv.2 kvs ++ '\n' ::
        (indentChars lvl ++ [rbrace])), ?_, by decide, by decide, by decide⟩
      cases kv
      simp [dumpVal]

theorem dumpVal_null (lvl : Nat) : dumpVal lvl JsonValue.null = ['n', 'u', 'l', 'l'] := by
  simp [dumpVal]

theorem dumpVal_true (lvl : Nat) :
    dumpVal lvl (JsonValue.bool true) = ['t', 'r', 'u', 'e'] := by
  simp [dumpVal]

theorem dumpVal_false (lvl : Nat) :
    dumpVal lvl (JsonValue.bool false) = ['f', 'a', 'l', 's', 'e'] := by
  simp [dumpVal]

theorem dumpVal_str (lvl : Nat) (s : String) :
    dumpVal lvl (JsonValue.str s) = '"' :: (escapeChars s.data ++ ['"']) := by
  simp [dumpVal]

theorem dumpVal_num (lvl : Nat) (i : Int) :
    dumpVal lvl (JsonValue.num i) =
      if i < 0 then '-' :: natToChars i.natAbs else natToChars i.natAbs := by
  simp [dumpVal]

theorem dumpVal_arr_nil (lvl : Nat) : dumpVal lvl (JsonValue.arr []) = ['[', ']'] := by
  simp [dumpVal]

theorem dumpVal_arr_cons (lvl : Nat) (x : JsonValue) (xs : List JsonValue) :
    dumpVal lvl (JsonValue.arr (x :: xs)) =
      '[' :: '\n' :: (dumpItems (lvl + 1) x xs ++ '\n' :: (indentChars lvl ++ [']'])) := by
  simp [dumpVal]

theorem dumpVal_obj_nil (lvl : Nat) : dumpVal lvl (JsonValue.obj []) = [lbrace, rbrace] := by
  simp [dumpVal]

theorem dumpVal_obj_cons (lvl : Nat) (k : String) (v : JsonValue)
    (kvs : List (String × JsonValue)) :
    dumpVal lvl (JsonValue.obj ((k, v) :: kvs)) =
      lbrace :: '\n' ::
        (dumpFields (lvl + 1) k v kvs ++ '\n' :: (indentChars lvl ++ [rbrace])) := by
  simp [dumpVal]

theorem dumpItems_nil (lvl : Nat) (x : JsonValue) :
    dumpItems lvl x [] = indentChars lvl ++ dumpVal lvl x := by
  simp [dumpItems]

theorem dumpItems_cons (lvl : Nat) (x y : JsonValue) (ys : List JsonValue) :
    dumpItems lvl x (y :: ys) =
      indentChars lvl ++ (dumpVal lvl x ++ ',' :: '\n' :: dumpItems lvl y ys) := by
  simp [dumpItems]

theorem dumpFields_nil (lvl : Nat) (k : String) (v : JsonValue) :
    dumpFields lvl k v [] =
      indentChars lvl ++ '"' :: (escapeChars k.data ++ '"' :: ':' :: ' ' :: dumpVal lvl v) := by
  simp [dumpFields]

theorem dumpFields_cons (lvl : Nat) (k : String) (v : JsonValue) (k2 : String)
    (v2 : JsonValue) (kvs : List (String × JsonValue)) :
    dumpFields lvl k v ((k2, v2) :: kvs) =
      indentChars lvl ++ '"' :: (escapeChars k.data ++ '"' :: ':' :: ' ' ::
        (dumpVal lvl v ++ ',' :: '\n' :: dumpFields lvl k2 v2 kvs)) := by
  simp [dumpFields]

/-- Every rendered element list starts with its indentation, then the first
element's text, then a tail. -/
theorem dumpItems_decomp (lvl : Nat) (x : JsonValue) (xs : List JsonValue) :
    ∃ t, dumpItems lvl x xs = indentChars lvl ++ (dumpVal lvl x ++ t) := by
  cases xs with
  | nil => exact ⟨[], by rw [dumpItems_nil, List.append_nil]⟩
  | cons y ys => exact ⟨',' :: '\n' :: dumpItems lvl y ys, by rw [dumpItems_cons]⟩

theorem sizeV_pos (v : JsonValue) : 1 ≤ sizeV v := by
  cases v <;> simp [sizeV] <;> omega

theorem nonDigit_rsqb : (']' : Char).isDigit = false := rfl

theorem nonDigit_comma : (',' : Char).isDigit = false := rfl

theorem nonDigit_rbrace : rbrace.isDigit = false := rfl

theorem skipWs_cons_ws (c : Char) (l : List Char) (h : jsonWs c = true) :
    skipWs (c :: l) = skipWs l := by
  rw [skipWs, if_pos h]

theorem nonDigitHead_cons (c : Char) (l : List Char) (h : c.isDigit = false) :
    nonDigitHead (c :: l) := h

theorem allWs_singleton (c : Char) (h : jsonWs c = true) : allWs [c] :=
  allWs_cons c [] h allWs_nil

theorem string_mk_data (k : String) : String.mk k.data = k := rfl

/-- Every rendered member list starts with its indentation, the quoted
first key, `": "`, the first value's text, then a tail. -/
theorem dumpFields_decomp (lvl : Nat) (k : String) (v : JsonValue)
    (kvs : List (String × JsonValue)) :
    ∃ t, dumpFields lvl k v kvs =
      indentChars lvl ++ '"' :: (escapeChars k.data ++ '"' :: ':' :: ' ' ::
        (dumpVal lvl v ++ t)) := by
  cases kvs with
  | nil => exact ⟨[], by rw [dumpFields_nil, List.append_nil]⟩
  | cons kv2 kvs =>
    obtain ⟨k2, v2⟩ := kv2
    exact ⟨',' :: '\n' :: dumpFields lvl k2 v2 kvs, by rw [dumpFields_cons]⟩

theorem parse_dump_roundtrip : ∀ fuel : Nat,
    (∀ (v : JsonValue) (lvl : Nat) (rest : List Char), sizeV v ≤ fuel →
      wfV v = true → nonDigitHead rest →
      parseValue fuel (dumpVal lvl v ++ rest) = some (v, rest)) ∧
    (∀ (x : JsonValue) (xs : List JsonValue) (lvl : Nat) (w0 w1 rest : List Char),
      sizeL (x :: xs) ≤ fuel → wfL (x :: xs) = true → allWs w0 → allWs w1 →
      parseElems fuel (w0 ++ dumpItems lvl x xs ++ w1 ++ ']' :: rest) =
        some (x :: xs, rest)) ∧
    (∀ (k : String) (v : JsonValue) (kvs : List (String × JsonValue)) (lvl : Nat)
      (w0 w1 rest : List Char),
      sizeF ((k, v) :: kvs) ≤ fuel → wfF ((k, v) :: kvs) = true →
      allWs w0 → allWs w1 →
      parseMembers fuel (w0 ++ dumpFields lvl k v kvs ++ w1 ++ rbrace :: rest) =
        some ((k, v) :: kvs, rest)) := by
  intro fuel
  induction fuel using Nat.strong_induction_on with
  | _ fuel ih =>
  refine ⟨?_, ?_, ?_⟩
  · -- parseValue reads back dumpVal
    intro v lvl rest hsize hwf hrest
    cases fuel with
    | zero => exact absurd hsize (by have := sizeV_pos v; omega)
    | succ f =>
    cases v with
    | null =>
      rw [dumpVal_null]
      simp [parseValue, skipWs, jsonWs]
    | bool b =>
      cases b with
      | true =>
        rw [dumpVal_true]
        simp [parseValue, skipWs, jsonWs]
      | false =>
        rw [dumpVal_false]
        simp [parseValue, skipWs, jsonWs]
    | str s =>
      rw [dumpVal_str]
      have heq : ('"' :: (escapeChars s.data ++ ['"'])) ++ rest =
          '"' :: (escapeChars s.data ++ '"' :: rest) := by simp
      rw [heq]
      have hskip : skipWs ('"' :: (escapeChars s.data ++ '"' :: rest)) =
          '"' :: (escapeChars s.data ++ '"' :: rest) :=
        skipWs_cons_not_ws _ _ (by decide)
      simp [parseValue, hskip, parseStringBody_escape s.data rest]
    | num i =>
      rw [dumpVal_num]
      by_cases hneg : i < 0
      · rw [if_pos hneg]
        have heq : ('-' :: natToChars i.natAbs) ++ rest =
            '-' :: (natToChars i.natAbs ++ rest) := by simp
        rw [heq]
        have hskip : skipWs ('-' :: (natToChars i.natAbs ++ rest)) =
            '-' :: (natToChars i.natAbs ++ rest) :=
          skipWs_cons_not_ws _ _ (by decide)
        have hcast : -((i.natAbs : Nat) : Int) = i := by omega
        simp [parseValue, hskip, parseNat_natToChars i.natAbs rest hrest, hcast,
          show (('-' : Char) = lbrace) = False by decide, abs_of_neg hneg]
      · rw [if_neg hneg]
        obtain ⟨d, cs, hd, hcs⟩ := natToChars_head i.natAbs
        obtain ⟨hdig, _, hws, hn, htc, hfc, hq, hlb, hlb2, hmin, _, _⟩ :=
          digitChar_spec d hd
        have heq : natToChars i.natAbs ++ rest = digitChar d :: (cs ++ rest) := by
          rw [hcs]; simp
        rw [heq]
        have hskip : skipWs (digitChar d :: (cs ++ rest)) =
            digitChar d :: (cs ++ rest) := skipWs_cons_not_ws _ _ hws
        have hparse : parseNat (digitChar d :: (cs ++ rest)) =
            some (i.natAbs, rest) := by
          rw [← List.cons_append, ← hcs]
          exact parseNat_natToChars i.natAbs rest hrest
        have hcast : ((i.natAbs : Nat) : Int) = i := by omega
        simp [parseValue, hskip, hn, htc, hfc, hq, hlb, hlb2, hmin, hdig,
          hparse, hcast]
    | arr xs =>
      cases xs with
      | nil =>
        rw [dumpVal_arr_nil]
        simp [parseValue, skipWs, jsonWs]
      | cons x xs =>
        rw [dumpVal_arr_cons]
        have hsize' : sizeL (x :: xs) ≤ f := by
          rw [show sizeV (JsonValue.arr (x :: xs)) = 2 + sizeL (x :: xs) from by
            simp [sizeV]] at hsize
          omega
        have hwf' : wfL (x :: xs) = true := by
          rw [show wfV (JsonValue.arr (x :: xs)) = wfL (x :: xs) from by
            simp [wfV]] at hwf
          exact hwf
        have heq : ('[' :: '\n' :: (dumpItems (lvl + 1) x xs ++ '\n' ::
            (indentChars lvl ++ [']']))) ++ rest =
            '[' :: ('\n' :: (dumpItems (lvl + 1) x xs ++ '\n' ::
              (indentChars lvl ++ (']' :: rest)))) := by simp
        rw [heq]
        have hskip0 : skipWs ('[' :: ('\n' :: (dumpItems (lvl + 1) x xs ++ '\n' ::
            (indentChars lvl ++ (']' :: rest))))) =
            '[' :: ('\n' :: (dumpItems (lvl + 1) x xs ++ '\n' ::
              (indentChars lvl ++ (']' :: rest)))) :=
          skipWs_cons_not_ws _ _ (by decide)
        obtain ⟨t, htd⟩ := dumpItems_decomp (lvl + 1) x xs
        obtain ⟨c0, cs0, hc0, hc0ws, hc0rb, _⟩ := dumpVal_head (lvl + 1) x
        have hskip1 : skipWs ('\n' :: (dumpItems (lvl + 1) x xs ++ '\n' ::
            (indentChars lvl ++ (']' :: rest)))) =
            c0 :: (cs0 ++ (t ++ '\n' :: (indentChars lvl ++ (']' :: rest)))) := by
          rw [skipWs_cons_ws _ _ (by decide), htd, hc0]
          have heq2 : (indentChars (lvl + 1) ++ (c0 :: cs0 ++ t)) ++ '\n' ::
              (indentChars lvl ++ (']' :: rest)) =
              indentChars (lvl + 1) ++ (c0 :: (cs0 ++ (t ++ '\n' ::
                (indentChars lvl ++ (']' :: rest))))) := by simp
          rw [heq2, skipWs_append_allWs _ (allWs_indent _),
            skipWs_cons_not_ws _ _ hc0ws]
        have helems := (ih f (by omega)).2.1 x xs (lvl + 1) ['\n']
          ('\n' :: indentChars lvl) rest hsize' hwf'
          (allWs_singleton _ (by decide))
          (allWs_cons _ _ (by decide) (allWs_indent lvl))
        have heq3 : ['\n'] ++ dumpItems (lvl + 1) x xs ++
            ('\n' :: indentChars lvl) ++ ']' :: rest =
            '\n' :: (dumpItems (lvl + 1) x xs ++ '\n' ::
              (indentChars lvl ++ (']' :: rest))) := by simp
        rw [heq3] at helems
        simp [parseValue, hskip0, hskip1, hc0rb, helems]
    | obj fs =>
      cases fs with
      | nil =>
        rw [dumpVal_obj_nil]
        have heqO : [lbrace, rbrace] ++ rest = lbrace :: (rbrace :: rest) := by
          simp
        rw [heqO]
        have hskip : skipWs (lbrace :: (rbrace :: rest)) =
            lbrace :: (rbrace :: rest) := skipWs_cons_not_ws _ _ (by decide)
        have hskip2 : skipWs (rbrace :: rest) = rbrace :: rest :=
          skipWs_cons_not_ws _ _ (by decide)
        simp [parseValue, hskip, hskip2,
          show (lbrace = 'n') = False by decide,
          show (lbrace = 't') = False by decide,
          show (lbrace = 'f') = False by decide,
          show (lbrace = '"') = False by decide,
          show (lbrace = '[') = False by decide]
      | cons kv kvs =>
        obtain ⟨k, v⟩ := kv
        rw [dumpVal_obj_cons]
        have hsize' : sizeF ((k, v) :: kvs) ≤ f := by
          rw [show sizeV (JsonValue.obj ((k, v) :: kvs)) =
            2 + sizeF ((k, v) :: kvs) from by simp [sizeV]] at hsize
          omega
        have hwfsplit := hwf
        rw [show wfV (JsonValue.obj ((k, v) :: kvs)) =
          (noDupKeys (((k, v) :: kvs).map Prod.fst) && wfF ((k, v) :: kvs))
          from by simp [wfV]] at hwfsplit
        obtain ⟨hnodup, hwf'⟩ := Bool.and_eq_true_iff.mp hwfsplit
        have heq : (lbrace :: '\n' :: (dumpFields (lvl + 1) k v kvs ++ '\n' ::
            (indentChars lvl ++ [rbrace]))) ++ rest =
            lbrace :: ('\n' :: (dumpFields (lvl + 1) k v kvs ++ '\n' ::
              (indentChars lvl ++ (rbrace :: rest)))) := by simp
        rw [heq]
        have hskip0 : skipWs (lbrace :: ('\n' :: (dumpFields (lvl + 1) k v kvs ++
            '\n' :: (indentChars lvl ++ (rbrace :: rest))))) =
            lbrace :: ('\n' :: (dumpFields (lvl + 1) k v kvs ++ '\n' ::
              (indentChars lvl ++ (rbrace :: rest)))) :=
          skipWs_cons_not_ws _ _ (by decide)
        obtain ⟨t, htd⟩ := dumpFields_decomp (lvl + 1) k v kvs
        have hskip1 : skipWs ('\n' :: (dumpFields (lvl + 1) k v kvs ++ '\n' ::
            (indentChars lvl ++ (rbrace :: rest)))) =
            '"' :: ((escapeChars k.data ++ '"' :: ':' :: ' ' ::
              (dumpVal (lvl + 1) v ++ t)) ++ '\n' ::
              (indentChars lvl ++ (rbrace :: rest))) := by
          rw [skipWs_cons_ws _ _ (by decide), htd]
          have heq2 : (indentChars (lvl + 1) ++ '"' :: (escapeChars k.data ++
              '"' :: ':' :: ' ' :: (dumpVal (lvl + 1) v ++ t))) ++ '\n' ::
              (indentChars lvl ++ (rbrace :: rest)) =
              indentChars (lvl + 1) ++ ('"' :: ((escapeChars k.data ++
                '"' :: ':' :: ' ' :: (dumpVal (lvl + 1) v ++ t)) ++ '\n' ::
                (indentChars lvl ++ (rbrace :: rest)))) := by simp
          rw [heq2, skipWs_append_allWs _ (allWs_indent _),
            skipWs_cons_not_ws _ _ (by decide)]
        have hmem := (ih f (by omega)).2.2 k v kvs (lvl + 1) ['\n']
          ('\n' :: indentChars lvl) rest hsize' hwf'
          (allWs_singleton _ (by decide))
          (allWs_cons _ _ (by decide) (allWs_indent lvl))
        have heq3 : ['\n'] ++ dumpFields (lvl + 1) k v kvs ++
            ('\n' :: indentChars lvl) ++ rbrace :: rest =
            '\n' :: (dumpFields (lvl + 1) k v kvs ++ '\n' ::
              (indentChars lvl ++ (rbrace :: rest))) := by simp
        rw [heq3] at hmem
        simp [parseValue, hskip0, hskip1, hmem,
          show (('"' : Char) = rbrace) = False by decide,
          show (lbrace = 'n') = False by decide,
          show (lbrace = 't') = False by decide,
          show (lbrace = 'f') = False by decide,
          show (lbrace = '"') = False by decide,
          show (lbrace = '[') = False by decide,
          dictFromPairs_eq_self _ hnodup]
  · -- parseElems reads back dumpItems
    intro x xs lvl w0 w1 rest hsize hwf hw0 hw1
    cases fuel with
    | zero => exact absurd hsize (by simp [sizeL])
    | succ f =>
    have hwfsplit := hwf
    rw [show wfL (x :: xs) = (wfV x && wfL xs) from by simp [wfL]] at hwfsplit
    obtain ⟨hwfx, hwfxs⟩ := Bool.and_eq_true_iff.mp hwfsplit
    have hszx : sizeV x ≤ f := by
      rw [show sizeL (x :: xs) = 2 + sizeV x + sizeL xs from by simp [sizeL]]
        at hsize
      omega
    cases xs with
    | nil =>
      have heq : w0 ++ dumpItems lvl x [] ++ w1 ++ ']' :: rest =
          (w0 ++ indentChars lvl) ++ (dumpVal lvl x ++ (w1 ++ ']' :: rest)) := by
        rw [dumpItems_nil]; simp
      have hpv : parseValue f (w0 ++ dumpItems lvl x [] ++ w1 ++ ']' :: rest) =
          some (x, w1 ++ ']' :: rest) := by
        rw [heq, parseValue_ws_prefix f _ _ (allWs_append _ _ hw0 (allWs_indent lvl))]
        exact (ih f (by omega)).1 x lvl (w1 ++ ']' :: rest) hszx hwfx
          (nonDigitHead_allWs_append w1 hw1 ']' (by decide) rest)
      have hskip : skipWs (w1 ++ ']' :: rest) = ']' :: rest := by
        rw [skipWs_append_allWs _ hw1, skipWs_cons_not_ws _ _ (by decide)]
      simp only [List.append_assoc] at hpv
      simp [parseElems, hpv, hskip]
    | cons y ys =>
      have heq : w0 ++ dumpItems lvl x (y :: ys) ++ w1 ++ ']' :: rest =
          (w0 ++ indentChars lvl) ++ (dumpVal lvl x ++ (',' :: ('\n' ::
            (dumpItems lvl y ys ++ w1 ++ ']' :: rest)))) := by
        rw [dumpItems_cons]; simp
      have hpv : parseValue f (w0 ++ dumpItems lvl x (y :: ys) ++ w1 ++
          ']' :: rest) = some (x, ',' :: ('\n' ::
            (dumpItems lvl y ys ++ w1 ++ ']' :: rest))) := by
        rw [heq, parseValue_ws_prefix f _ _ (allWs_append _ _ hw0 (allWs_indent lvl))]
        exact (ih f (by omega)).1 x lvl _ hszx hwfx
          (nonDigitHead_cons _ _ (by decide))
      have hskip : skipWs (',' :: ('\n' ::
          (dumpItems lvl y ys ++ w1 ++ ']' :: rest))) =
          ',' :: ('\n' :: (dumpItems lvl y ys ++ w1 ++ ']' :: rest)) :=
        skipWs_cons_not_ws _ _ (by decide)
      have hsz' : sizeL (y :: ys) ≤ f := by
        rw [show sizeL (x :: y :: ys) = 2 + sizeV x + sizeL (y :: ys) from by
          simp [sizeL]] at hsize
        omega
      have htail := (ih f (by omega)).2.1 y ys lvl ['\n'] w1 rest hsz' hwfxs
        (allWs_singleton _ (by decide)) hw1
      have heq4 : ['\n'] ++ dumpItems lvl y ys ++ w1 ++ ']' :: rest =
          '\n' :: (dumpItems lvl y ys ++ w1 ++ ']' :: rest) := by simp
      rw [heq4] at htail
      simp only [List.append_assoc] at hpv hskip htail
      simp [parseElems, hpv, hskip, htail]
  · -- parseMembers reads back dumpFields
    intro k v kvs lvl w0 w1 rest hsize hwf hw0 hw1
    cases fuel with
    | zero => exact absurd hsize (by simp [sizeF])
    | succ f =>
    have hwfsplit := hwf
    rw [show wfF ((k, v) :: kvs) = (wfV v && wfF kvs) from by simp [wfF]]
      at hwfsplit
    obtain ⟨hwfv, hwfkvs⟩ := Bool.and_eq_true_iff.mp hwfsplit
    have hszv : sizeV v ≤ f := by
      rw [show sizeF ((k, v) :: kvs) = 2 + sizeV v + sizeF kvs from by
        simp [sizeF]] at hsize
      omega
    cases kvs with
    | nil =>
      have heq : w0 ++ dumpFields lvl k v [] ++ w1 ++ rbrace :: rest =
          (w0 ++ indentChars lvl) ++ ('"' :: (escapeChars k.data ++
            '"' :: (':' :: (' ' :: (dumpVal lvl v ++ (w1 ++ rbrace :: rest)))))) := by
        rw [dumpFields_nil]; simp
      rw [heq]
      have hskipIn : skipWs ((w0 ++ indentChars lvl) ++ ('"' ::
          (escapeChars k.data ++ '"' :: (':' :: (' ' ::
            (dumpVal lvl v ++ (w1 ++ rbrace :: rest))))))) =
          '"' :: (escapeChars k.data ++ '"' :: (':' :: (' ' ::
            (dumpVal lvl v ++ (w1 ++ rbrace :: rest))))) := by
        rw [skipWs_append_allWs _ (allWs_append _ _ hw0 (allWs_indent lvl)),
          skipWs_cons_not_ws _ _ (by decide)]
      have hstr := parseStringBody_escape k.data
        (':' :: (' ' :: (dumpVal lvl v ++ (w1 ++ rbrace :: rest))))
      have hskipColon : skipWs (':' :: (' ' ::
          (dumpVal lvl v ++ (w1 ++ rbrace :: rest)))) =
          ':' :: (' ' :: (dumpVal lvl v ++ (w1 ++ rbrace :: rest))) :=
        skipWs_cons_not_ws _ _ (by decide)
      have hpv : parseValue f (' ' :: (dumpVal lvl v ++ (w1 ++ rbrace :: rest))) =
          some (v, w1 ++ rbrace :: rest) := by
        rw [show (' ' :: (dumpVal lvl v ++ (w1 ++ rbrace :: rest))) =
          [' '] ++ (dumpVal lvl v ++ (w1 ++ rbrace :: rest)) from rfl,
          parseValue_ws_prefix f _ _ (allWs_singleton _ (by decide))]
        exact (ih f (by omega)).1 v lvl _ hszv hwfv
          (nonDigitHead_allWs_append w1 hw1 rbrace (by decide) rest)
      have hskipEnd : skipWs (w1 ++ rbrace :: rest) = rbrace :: rest := by
        rw [skipWs_append_allWs _ hw1, skipWs_cons_not_ws _ _ (by decide)]
      simp only [List.append_assoc] at hskipIn
      simp [parseMembers, hskipIn, hstr, hskipColon, hpv, hskipEnd,
        show (rbrace = ',') = False by decide, string_mk_data]
    | cons kv2 kvs' =>
      obtain ⟨k2, v2⟩ := kv2
      have heq : w0 ++ dumpFields lvl k v ((k2, v2) :: kvs') ++ w1 ++
          rbrace :: rest =
          (w0 ++ indentChars lvl) ++ ('"' :: (escapeChars k.data ++
            '"' :: (':' :: (' ' :: (dumpVal lvl v ++ (',' :: ('\n' ::
              (dumpFields lvl k2 v2 kvs' ++ w1 ++ rbrace :: rest)))))))) := by
        rw [dumpFields_cons]; simp
      rw [heq]
      have hskipIn : skipWs ((w0 ++ indentChars lvl) ++ ('"' ::
          (escapeChars k.data ++ '"' :: (':' :: (' ' ::
            (dumpVal lvl v ++ (',' :: ('\n' ::
              (dumpFields lvl k2 v2 kvs' ++ w1 ++ rbrace :: rest))))))))) =
          '"' :: (escapeChars k.data ++ '"' :: (':' :: (' ' ::
            (dumpVal lvl v ++ (',' :: ('\n' ::
              (dumpFields lvl k2 v2 kvs' ++ w1 ++ rbrace :: rest))))))) := by
        rw [skipWs_append_allWs _ (allWs_append _ _ hw0 (allWs_indent lvl)),
          skipWs_cons_not_ws _ _ (by decide)]
      have hstr := parseStringBody_escape k.data
        (':' :: (' ' :: (dumpVal lvl v ++ (',' :: ('\n' ::
          (dumpFields lvl k2 v2 kvs' ++ w1 ++ rbrace :: rest))))))
      have hskipColon : skipWs (':' :: (' ' :: (dumpVal lvl v ++ (',' :: ('\n' ::
          (dumpFields lvl k2 v2 kvs' ++ w1 ++ rbrace :: rest)))))) =
          ':' :: (' ' :: (dumpVal lvl v ++ (',' :: ('\n' ::
            (dumpFields lvl k2 v2 kvs' ++ w1 ++ rbrace :: rest))))) :=
        skipWs_cons_not_ws _ _ (by decide)
      have hpv : parseValue f (' ' :: (dumpVal lvl v ++ (',' :: ('\n' ::
          (dumpFields lvl k2 v2 kvs' ++ w1 ++ rbrace :: rest))))) =
          some (v, ',' :: ('\n' ::
            (dumpFields lvl k2 v2 kvs' ++ w1 ++ rbrace :: rest))) := by
        rw [show (' ' :: (dumpVal lvl v ++ (',' :: ('\n' ::
          (dumpFields lvl k2 v2 kvs' ++ w1 ++ rbrace :: rest))))) =
          [' '] ++ (dumpVal lvl v ++ (',' :: ('\n' ::
            (dumpFields lvl k2 v2 kvs' ++ w1 ++ rbrace :: rest)))) from rfl,
          parseValue_ws_prefix f _ _ (allWs_singleton _ (by decide))]
        exact (ih f (by omega)).1 v lvl _ hszv hwfv
          (nonDigitHead_cons _ _ (by decide))
      have hskipComma : skipWs (',' :: ('\n' ::
          (dumpFields lvl k2 v2 kvs' ++ w1 ++ rbrace :: rest))) =
          ',' :: ('\n' :: (dumpFields lvl k2 v2 kvs' ++ w1 ++ rbrace :: rest)) :=
        skipWs_cons_not_ws _ _ (by decide)
      have hsz' : sizeF ((k2, v2) :: kvs') ≤ f := by
        rw [show sizeF ((k, v) :: (k2, v2) :: kvs') =
          2 + sizeV v + sizeF ((k2, v2) :: kvs') from by simp [sizeF]] at hsize
        omega
      have htail := (ih f (by omega)).2.2 k2 v2 kvs' lvl ['\n'] w1 rest hsz'
        hwfkvs (allWs_singleton _ (by decide)) hw1
      have heq4 : ['\n'] ++ dumpFields lvl k2 v2 kvs' ++ w1 ++ rbrace :: rest =
          '\n' :: (dumpFields lvl k2 v2 kvs' ++ w1 ++ rbrace :: rest) := by simp
      rw [heq4] at htail
      simp only [List.append_assoc] at hskipIn hstr hskipColon hpv hskipComma htail
      simp [parseMembers, hskipIn, hstr, hskipColon, hpv, hskipComma, htail,
        string_mk_data]

/-- The printed form of a value is long enough that `parseJson`'s fuel
`3 * length + 3` covers the recursion the parse needs. -/
theorem dump_length_bound : ∀ fuel : Nat,
    (∀ (v : JsonValue) (lvl : Nat), sizeV v ≤ fuel →
      sizeV v + 2 ≤ 3 * (dumpVal lvl v).length) ∧
    (∀ (x : JsonValue) (xs : List JsonValue) (lvl : Nat), sizeL (x :: xs) ≤ fuel →
      sizeL (x :: xs) ≤ 3 * (dumpItems lvl x xs).length) ∧
    (∀ (k : String) (v : JsonValue) (kvs : List (String × JsonValue)) (lvl : Nat),
      sizeF ((k, v) :: kvs) ≤ fuel →
      sizeF ((k, v) :: kvs) ≤ 3 * (dumpFields lvl k v kvs).length) := by
  intro fuel
  induction fuel using Nat.strong_induction_on with
  | _ fuel ih =>
  refine ⟨?_, ?_, ?_⟩
  · intro v lvl hsize
    cases fuel with
    | zero => exact absurd hsize (by have := sizeV_pos v; omega)
    | succ f =>
    cases v with
    | null => rw [dumpVal_null]; simp [sizeV]
    | bool b =>
      cases b with
      | true => rw [dumpVal_true]; simp [sizeV]
      | false => rw [dumpVal_false]; simp [sizeV]
    | str s => rw [dumpVal_str]; simp [sizeV]
    | num i =>
      rw [dumpVal_num]
      have hlen : 0 < (natToChars i.natAbs).length :=
        List.length_pos.mpr (natToChars_ne_nil i.natAbs)
      by_cases hneg : i < 0
      · rw [if_pos hneg]; simp [sizeV]
      · rw [if_neg hneg]; simp [sizeV]; omega
    | arr xs =>
      cases xs with
      | nil => rw [dumpVal_arr_nil]; simp [sizeV, sizeL]
      | cons x xs =>
        have hsize' : sizeL (x :: xs) ≤ f := by
          rw [show sizeV (JsonValue.arr (x :: xs)) = 2 + sizeL (x :: xs) from by
            simp [sizeV]] at hsize
          omega
        have ihL := (ih f (by omega)).2.1 x xs (lvl + 1) hsize'
        rw [dumpVal_arr_cons,
          show sizeV (JsonValue.arr (x :: xs)) = 2 + sizeL (x :: xs) from by
            simp [sizeV]]
        simp [indentChars]
        omega
    | obj fs =>
      cases fs with
      | nil => rw [dumpVal_obj_nil]; simp [sizeV, sizeF]
      | cons kv kvs =>
        obtain ⟨k, v⟩ := kv
        have hsize' : sizeF ((k, v) :: kvs) ≤ f := by
          rw [show sizeV (JsonValue.obj ((k, v) :: kvs)) =
            2 + sizeF ((k, v) :: kvs) from by simp [sizeV]] at hsize
          omega
        have ihF := (ih f (by omega)).2.2 k v kvs (lvl + 1) hsize'
        rw [dumpVal_obj_cons,
          show sizeV (JsonValue.obj ((k, v) :: kvs)) =
            2 + sizeF ((k, v) :: kvs) from by simp [sizeV]]
        simp [indentChars]
        omega
  · intro x xs lvl hsize
    cases fuel with
    | zero => exact absurd hsize (by simp [sizeL])
    | succ f =>
    have hszx : sizeV x ≤ f := by
      rw [show sizeL (x :: xs) = 2 + sizeV x + sizeL xs from by simp [sizeL]]
        at hsize
      omega
    have ihV := (ih f (by omega)).1 x lvl hszx
    cases xs with
    | nil =>
      rw [dumpItems_nil,
        show sizeL [x] = 2 + sizeV x + sizeL [] from by simp [sizeL]]
      simp [indentChars, sizeL]
      omega
    | cons y ys =>
      have hsz' : sizeL (y :: ys) ≤ f := by
        rw [show sizeL (x :: y :: ys) = 2 + sizeV x + sizeL (y :: ys) from by
          simp [sizeL]] at hsize
        omega
      have ihL := (ih f (by omega)).2.1 y ys lvl hsz'
      rw [dumpItems_cons,
        show sizeL (x :: y :: ys) = 2 + sizeV x + sizeL (y :: ys) from by
          simp [sizeL]]
      simp [indentChars]
      omega
  · intro k v kvs lvl hsize
    cases fuel with
    | zero => exact absurd hsize (by simp [sizeF])
    | succ f =>
    have hszv : sizeV v ≤ f := by
      rw [show sizeF ((k, v) :: kvs) = 2 + sizeV v + sizeF kvs from by
        simp [sizeF]] at hsize
      omega
    have ihV := (ih f (by omega)).1 v lvl hszv
    cases kvs with
    | nil =>
      rw [dumpFields_nil,
        show sizeF [(k, v)] = 2 + sizeV v + sizeF [] from by simp [sizeF]]
      simp [indentChars, sizeF]
      omega
    | cons kv2 kvs' =>
      obtain ⟨k2, v2⟩ := kv2
      have hsz' : sizeF ((k2, v2) :: kvs') ≤ f := by
        rw [show sizeF ((k, v) :: (k2, v2) :: kvs') =
          2 + sizeV v + sizeF ((k2, v2) :: kvs') from by simp [sizeF]] at hsize
        omega
      have ihF := (ih f (by omega)).2.2 k2 v2 kvs' lvl hsz'
      rw [dumpFields_cons,
        show sizeF ((k, v) :: (k2, v2) :: kvs') =
          2 + sizeV v + sizeF ((k2, v2) :: kvs') from by simp [sizeF]]
      simp [indentChars]
      omega

/-- A record list whose records are well-formed dictionaries serializes to
a well-formed array value. -/
theorem wfV_arr_map_obj (X : List Dict)
    (h : ∀ d ∈ X, wfV (JsonValue.obj d) = true) :
    wfV (JsonValue.arr (X.map JsonValue.obj)) = true := by
  induction X with
  | nil => rfl
  | cons d X ihX =>
    have hd : wfV (JsonValue.obj d) = true := h d (by simp)
    have hX : wfV (JsonValue.arr (X.map JsonValue.obj)) = true :=
      ihX (fun d' hd' => h d' (by simp [hd']))
    rw [show wfV (JsonValue.arr ((d :: X).map JsonValue.obj)) =
      (wfV (JsonValue.obj d) &&
        wfV (JsonValue.arr (X.map JsonValue.obj))) from by simp [wfV, wfL]]
    rw [hd, hX]
    rfl

/-- `json.loads` reads the indented text `json.dump` wrote back as the
value it was written from. -/
theorem parseJson_dumpJson (X : List Dict)
    (hwf : wfV (JsonValue.arr (X.map JsonValue.obj)) = true) :
    parseJson (dumpJson X) = some (JsonValue.arr (X.map JsonValue.obj)) := by
  have hfuel : sizeV (JsonValue.arr (X.map JsonValue.obj)) ≤
      3 * (dumpJson X).length + 3 := by
    have h := (dump_length_bound
      (sizeV (JsonValue.arr (X.map JsonValue.obj)))).1
      (JsonValue.arr (X.map JsonValue.obj)) 0 le_rfl
    rw [show dumpJson X = dumpVal 0 (JsonValue.arr (X.map JsonValue.obj))
      from rfl]
    omega
  have h := (parse_dump_roundtrip (3 * (dumpJson X).length + 3)).1
    (JsonValue.arr (X.map JsonValue.obj)) 0 [] hfuel hwf trivial
  rw [List.append_nil,
    show dumpVal 0 (JsonValue.arr (X.map JsonValue.obj)) = dumpJson X
      from rfl] at h
  simp [parseJson, h, skipWs]

theorem dropWhile_snoc_ne_nil (p : Char → Bool) (a : Char)
    (h : p a = false) : ∀ xs : List Char, (xs ++ [a]).dropWhile p ≠ [] := by
  intro xs
  induction xs with
  | nil => simp [List.dropWhile, h]
  | cons x xs ihx =>
    by_cases hx : p x = true
    · simpa [List.dropWhile, hx] using ihx
    · simp [List.dropWhile, hx]

/-- The serialized text always begins with the array bracket, so it never
strips to the empty string. -/
theorem pyStripChars_dumpJson_ne_nil (X : List Dict) :
    pyStripChars (dumpJson X) ≠ [] := by
  obtain ⟨cs, hcs⟩ : ∃ cs, dumpJson X = '[' :: cs := by
    rw [show dumpJson X = dumpVal 0 (JsonValue.arr (X.map JsonValue.obj))
      from rfl]
    cases X with
    | nil =>
      exact ⟨[']'], by
        rw [show List.map JsonValue.obj [] = ([] : List JsonValue) from rfl,
          dumpVal_arr_nil]⟩
    | cons d X =>
      rw [show (d :: X).map JsonValue.obj =
        JsonValue.obj d :: X.map JsonValue.obj from rfl, dumpVal_arr_cons]
      exact ⟨_, rfl⟩
  rw [hcs]
  unfold pyStripChars
  rw [show ('[' :: cs).dropWhile pyIsSpace = '[' :: cs from by
    simp [List.dropWhile, show pyIsSpace '[' = false from by decide]]
  rw [show ('[' :: cs).reverse = cs.reverse ++ ['['] from by simp]
  intro hcon
  exact dropWhile_snoc_ne_nil pyIsSpace '[' (by decide) cs.reverse
    (by simpa using hcon)

/-- C8: saving a record sequence and loading it back yields the very
value that was saved, field for field, and saving again changes nothing. -/
theorem C8_save_load_roundtrip (X : List Dict) (fs : FS) (hne : X ≠ [])
    (hwf : ∀ d ∈ X, wfV (JsonValue.obj d) = true) :
    load_output_data (save_output_data X fs) =
      Except.ok (JsonValue.arr (X.map JsonValue.obj)) ∧
    save_output_data X (save_output_data X fs) = save_output_data X fs := by
  refine ⟨?_, rfl⟩
  have hparse := parseJson_dumpJson X (wfV_arr_map_obj X hwf)
  have hnil := pyStripChars_dumpJson_ne_nil X
  simp [load_output_data, save_output_data, hnil, hparse]

theorem C8_save_load_roundtrip_witness :
    ([[("a", JsonValue.str "b")]] : List Dict) ≠ [] ∧
    load_output_data
      (save_output_data [[("a", JsonValue.str "b")]] ⟨none, none⟩) =
      Except.ok (JsonValue.arr [JsonValue.obj [("a", JsonValue.str "b")]]) := by
  refine ⟨List.cons_ne_nil _ _, ?_⟩
  exact (C8_save_load_roundtrip [[("a", JsonValue.str "b")]] ⟨none, none⟩
    (List.cons_ne_nil _ _) (by intro d hd; simp at hd; rw [hd]; rfl)).1
